import Mathlib

/-!
# s3-mailbench: statistics engine, job feeders and workers

A shallow embedding of `stat.go`, `main.go` (`FeedUpload`, `FeedDownload`) and
`s3.go` (the three workers), followed by the properties proved about them.

Conventions of the embedding:

* `uint64` fields are `Nat` with an explicit `% 2 ^ 64` at every update;
  `int`, `int64` and `time.Duration` values are `Int`.
* `float64` is `F64`, an executable model of IEEE-754 binary64 with
  round-to-nearest-even (`roundRat`).
* A channel is the list of values sent on it, in order, with a `closed` flag.
  Blocking on a full channel is not represented: a send always completes.
* The clock, the git history, the object listing and the outcome of every
  storage request are inputs.
* A Go run-time panic is recorded in the returned value together with the
  state reached when it was raised.

The definitions come first, then the lemmas on the binary64 model, the
feeders, the statistics and the workers, and last the claims `C1` to `C10`.
-/

namespace S3Bench

/-! ## float64 -/

/-- IEEE-754 binary64 value: `finite neg m e` is `(-1)^neg * m * 2^e`, kept
canonical (`m = 0 ∧ e = 0`, or `2^52 ≤ m < 2^53`, or a subnormal with
`e = -1074`). -/
inductive F64 where
  | finite (neg : Bool) (m : Nat) (e : Int)
  | inf (neg : Bool)
  | nan
  deriving DecidableEq, Repr

/-- Number of binary digits of `n`, by structural recursion on `fuel`
(called with `fuel = n`, which is always enough). -/
def bitLen : Nat → Nat → Nat
  | 0, _ => 0
  | fuel + 1, n => if n = 0 then 0 else bitLen fuel (n / 2) + 1

/-- Exponent of the binary64 value nearest to `a / b` (`a, b > 0`): the `k`
with `2^52 ≤ a / b / 2^k < 2^53`, or `-1074` when that one is smaller
(subnormal range). -/
def roundExp (a b : Nat) : Int :=
  let k0 : Int := (bitLen a a : Int) - (bitLen b b : Int) - 52
  let q0 := (a * 2 ^ (-k0).toNat) / (b * 2 ^ k0.toNat)
  let k1 : Int := if q0 < 2 ^ 52 then k0 - 1 else k0
  if k1 < -1074 then -1074 else k1

/-- Significand of the binary64 value nearest to `a / b` at exponent `k`:
`a / b / 2^k` rounded to the nearest integer, ties to even. -/
def roundSig (a b : Nat) (k : Int) : Nat :=
  let A := a * 2 ^ (-k).toNat
  let B := b * 2 ^ k.toNat
  let q := A / B
  let r := A % B
  if 2 * r < B then q
  else if B < 2 * r then q + 1
  else if q % 2 = 0 then q else q + 1

/-- The binary64 value `(-1)^neg * q * 2^k` for a rounded significand
`q ≤ 2^53`: zero, a carry into the next binade, or overflow to infinity. -/
def pack (neg : Bool) (q : Nat) (k : Int) : F64 :=
  if q = 0 then .finite neg 0 0
  else if q = 2 ^ 53 then
    (if 971 < k + 1 then .inf neg else .finite neg (2 ^ 52) (k + 1))
  else if 971 < k then .inf neg
  else .finite neg q k

/-- Rounds the rational `(-1)^neg * a / b` (`b > 0`) to the nearest binary64
value, ties to even, with gradual underflow and overflow to infinity. -/
def roundRat (neg : Bool) (a b : Nat) : F64 :=
  if a = 0 then .finite neg 0 0
  else pack neg (roundSig a b (roundExp a b)) (roundExp a b)

namespace F64

/-- Positive zero, the value read from a Go map at a missing key. -/
def zero : F64 := .finite false 0 0

/-- Conversion `float64(x)` of an unsigned integer. -/
def ofUInt64 (n : Nat) : F64 := roundRat false n 1

/-- Conversion `float64(x)` of a signed integer. -/
def ofInt64 (i : Int) : F64 := roundRat (decide (i < 0)) i.natAbs 1

/-- Conversion of the decimal constant `a / b` to `float64`. -/
def ofDecimal (a b : Nat) : F64 := roundRat false a b

/-- Product `x * y`. -/
def mul : F64 → F64 → F64
  | .nan, _ => .nan
  | _, .nan => .nan
  | .inf s, .inf t => .inf (xor s t)
  | .inf s, .finite t m _ => if m = 0 then .nan else .inf (xor s t)
  | .finite s m _, .inf t => if m = 0 then .nan else .inf (xor s t)
  | .finite s m e, .finite t n f =>
    roundRat (xor s t) (m * n * 2 ^ (e + f).toNat) (2 ^ (-(e + f)).toNat)

/-- Quotient `x / y`. -/
def div : F64 → F64 → F64
  | .nan, _ => .nan
  | _, .nan => .nan
  | .inf _, .inf _ => .nan
  | .inf s, .finite t _ _ => .inf (xor s t)
  | .finite s _ _, .inf t => .finite (xor s t) 0 0
  | .finite s m e, .finite t n f =>
    if n = 0 then (if m = 0 then .nan else .inf (xor s t))
    else roundRat (xor s t) (m * 2 ^ (e - f).toNat) (n * 2 ^ (f - e).toNat)

/-- Sum `x + y`. -/
def add : F64 → F64 → F64
  | .nan, _ => .nan
  | _, .nan => .nan
  | .inf s, .inf t => if s = t then .inf s else .nan
  | .inf s, .finite _ _ _ => .inf s
  | .finite _ _ _, .inf t => .inf t
  | .finite s m e, .finite t n f =>
    let g : Int := if e ≤ f then e else f
    let x : Int := (if s then -1 else 1) * (m * 2 ^ (e - g).toNat : Nat)
    let y : Int := (if t then -1 else 1) * (n * 2 ^ (f - g).toNat : Nat)
    let z : Int := x + y
    if z = 0 then .finite (s && t) 0 0
    else roundRat (decide (z < 0)) (z.natAbs * 2 ^ g.toNat) (2 ^ (-g).toNat)

/-- Conversion `int(x)`: truncation toward zero. Outside the range of `int`
the Go result is implementation-dependent; the amd64 value is used. -/
def toInt : F64 → Int
  | .finite s m e =>
    let t : Nat := m * 2 ^ e.toNat / 2 ^ (-e).toNat
    let v : Int := if s then -(t : Int) else (t : Int)
    if -(2 : Int) ^ 63 ≤ v ∧ v < (2 : Int) ^ 63 then v else -(2 : Int) ^ 63
  | _ => -(2 : Int) ^ 63

/-- Comparison `x <= y`; false when either side is NaN. -/
def le : F64 → F64 → Bool
  | .nan, _ => false
  | _, .nan => false
  | .inf s, .inf t => s || !t
  | .inf s, .finite _ _ _ => s
  | .finite _ _ _, .inf t => !t
  | .finite s m e, .finite t n f =>
    let g : Int := if e ≤ f then e else f
    let x : Int := (if s then -1 else 1) * (m * 2 ^ (e - g).toNat : Nat)
    let y : Int := (if t then -1 else 1) * (n * 2 ^ (f - g).toNat : Nat)
    decide (x ≤ y)

end F64

/-! ### The rational values behind the model -/

/-- The rational value of a finite binary64 value; 0 otherwise. -/
def F64.toRat : F64 → ℚ
  | .finite s m e => (if s then -1 else 1) * (m : ℚ) * (2 : ℚ) ^ e
  | _ => 0

/-- The rational `q * 2^k` that `roundRat` packs for `a / b`. -/
def rval (a b : Nat) : ℚ :=
  (roundSig a b (roundExp a b) : ℚ) * (2 : ℚ) ^ roundExp a b

/-- The value `rval` as a function of the rational rounded. -/
def rq (x : ℚ) : ℚ := rval x.num.natAbs x.den

/-- The rational value of the figure computed from a latency of `l`
nanoseconds: `l` converted to binary64, divided by `1_000_000`. -/
def msq (l : ℤ) : ℚ :=
  if l = 0 then 0
  else (if l < 0 then -1 else 1) * rq (rq (l.natAbs : ℚ) / 1000000)

/-- Round to the nearest natural number, ties to even. -/
def rne (t : ℚ) : ℕ :=
  if 2 * (t - ⌊t⌋₊) < 1 then ⌊t⌋₊
  else if 1 < 2 * (t - ⌊t⌋₊) then ⌊t⌋₊ + 1
  else if ⌊t⌋₊ % 2 = 0 then ⌊t⌋₊ else ⌊t⌋₊ + 1

/-! ## main.go: Result -/

/-- The record `Result` of main.go: `Latency` is a `time.Duration` in
nanoseconds, `Size` an `int`. -/
structure Result where
  Latency : Int
  Size : Int
  deriving DecidableEq, Repr

/-- Conversion `uint64(x)` of a signed integer. -/
def toUInt64 (x : Int) : Nat := (x % (2 : Int) ^ 64).toNat

/-! ## stat.go -/

/-- Key `min` of the `Latency` map (`iota + 1`). -/
def min : Int := 1
/-- Key `max` of the `Latency` map. -/
def max : Int := 2
/-- Key `avg` of the `Latency` map. -/
def avg : Int := 3
/-- Key `p25` of the `Latency` map. -/
def p25 : Int := 4
/-- Key `p50` of the `Latency` map. -/
def p50 : Int := 5
/-- Key `p75` of the `Latency` map. -/
def p75 : Int := 6
/-- Key `p90` of the `Latency` map. -/
def p90 : Int := 7
/-- Key `p99` of the `Latency` map. -/
def p99 : Int := 8

/-- The record `Stats`. `Latency` is the map `map[int]float64`: `none` at a
key that is absent. `Start` is the clock reading taken by `NewStats`. -/
structure Stats where
  Title : String
  Latency : Int → Option F64
  DataPoints : List Result
  SumLatency : Nat
  SumBytes : Nat
  Start : Int
  TotalTime : Int
  Rate : F64
  Count : Nat
  ObjectRate : F64

/-- The function `NewStats`; `now` is the value of `time.Now()`. -/
def NewStats (title : String) (now : Int) : Stats :=
  { Title := title
    Latency := fun _ => none
    DataPoints := []
    SumLatency := 0
    SumBytes := 0
    Count := 0
    Start := now
    TotalTime := 0
    Rate := F64.zero
    ObjectRate := F64.zero }

/-- The method `Time.Sub`: the difference, saturated to the range of
`time.Duration`. -/
def timeSub (t u : Int) : Int :=
  if t - u < -(2 : Int) ^ 63 then -(2 : Int) ^ 63
  else if (2 : Int) ^ 63 - 1 < t - u then (2 : Int) ^ 63 - 1
  else t - u

/-- The method `Duration.Seconds`:
`float64(d / Second) + float64(d % Second) / 1e9`. -/
def seconds (d : Int) : F64 :=
  F64.add (F64.ofInt64 (d.tdiv 1000000000))
    (F64.div (F64.ofInt64 (d.tmod 1000000000)) (F64.ofDecimal 1000000000 1))

/-- The method `Stats.Update`; `now` is the value of `time.Now()`. -/
def Stats.Update (stats : Stats) (result : Result) (now : Int) : Stats :=
  let sumBytes := (stats.SumBytes + toUInt64 result.Size) % 2 ^ 64
  let sumLatency := (stats.SumLatency + toUInt64 result.Latency) % 2 ^ 64
  let count := (stats.Count + 1) % 2 ^ 64
  let totalTime := timeSub now stats.Start
  { stats with
    SumBytes := sumBytes
    SumLatency := sumLatency
    DataPoints := stats.DataPoints ++ [result]
    Count := count
    Rate := F64.div (F64.ofUInt64 sumBytes) (seconds totalTime)
    ObjectRate := F64.div (F64.ofUInt64 count) (seconds totalTime) }

/-- The comparison `ByLatency.Less`, on the two elements it reads. -/
def ByLatency.Less (x y : Result) : Prop := x.Latency < y.Latency

instance (x y : Result) : Decidable (ByLatency.Less x y) :=
  inferInstanceAs (Decidable (x.Latency < y.Latency))

/-- The contract of `sort.Sort` on `ByLatency`: the result is a rearrangement
of the argument in which no later element is `Less` than an earlier one. The
sort need not be stable, so nothing more is known of it. -/
structure Sorter where
  sort : List Result → List Result
  perm : ∀ l, (sort l).Perm l
  sorted : ∀ l, (sort l).Pairwise (fun x y => ¬ ByLatency.Less y x)

/-- The result of a call that may panic: the state reached, and for a call
that panicked the slice index that was out of range. -/
structure Outcome where
  stats : Stats
  panic : Option Int

/-- The slice read `a[i]`; `none` when `i` is out of range. -/
def index (a : List Result) (i : Int) : Option Result :=
  if i < 0 then none else a[i.toNat]?

/-- The map write `stats.Latency[key] = v`. -/
def setLatency (stats : Stats) (key : Int) (v : F64) : Stats :=
  { stats with Latency := fun k => if k = key then some v else stats.Latency k }

/-- The map read `stats.Latency[key]`: zero at a missing key. -/
def Stats.latency (stats : Stats) (key : Int) : F64 :=
  (stats.Latency key).getD F64.zero

/-- The expression `float64(r.Latency.Nanoseconds()) / 1_000_000`. -/
def ms (r : Result) : F64 :=
  F64.div (F64.ofInt64 r.Latency) (F64.ofDecimal 1000000 1)

/-- The expression `int(float64(stats.Count) * float64(p)) - 1`, for the
constant `p = a / b`. -/
def pctIndex (stats : Stats) (a b : Nat) : Int :=
  F64.toInt (F64.mul (F64.ofUInt64 stats.Count) (F64.ofDecimal a b)) - 1

/-- One statement `stats.Latency[key] = float64(stats.DataPoints[i]...) /
1_000_000` of `Refresh`, skipped when an earlier statement panicked. -/
def storeAt (key : Int) (i : Stats → Int) (o : Outcome) : Outcome :=
  match o.panic with
  | some _ => o
  | none =>
    match index o.stats.DataPoints (i o.stats) with
    | none => { o with panic := some (i o.stats) }
    | some r => { o with stats := setLatency o.stats key (ms r) }

/-- The method `Stats.Refresh`. -/
def Stats.Refresh (S : Sorter) (stats : Stats) : Outcome :=
  if stats.Count ≤ 0 then ⟨stats, none⟩ else
  let s1 : Stats := { stats with DataPoints := S.sort stats.DataPoints }
  let s2 : Stats := setLatency s1 avg
    (F64.div (F64.div (F64.ofUInt64 s1.SumLatency) (F64.ofUInt64 s1.Count))
      (F64.ofDecimal 1000000 1))
  storeAt p99 (fun s => pctIndex s 99 100) <|
  storeAt p90 (fun s => pctIndex s 90 100) <|
  storeAt p75 (fun s => pctIndex s 75 100) <|
  storeAt p50 (fun s => pctIndex s 5 10) <|
  storeAt p25 (fun s => pctIndex s 25 100) <|
  storeAt max (fun s => (s.DataPoints.length : Int) - 1) <|
  storeAt min (fun _ => 0) ⟨s2, none⟩

/-- The order `x.Latency ≤ y.Latency`, that is `¬ Less y x`. -/
def latencyLE (x y : Result) : Prop := x.Latency ≤ y.Latency

instance : DecidableRel latencyLE :=
  fun x y => inferInstanceAs (Decidable (x.Latency ≤ y.Latency))

instance : IsTotal Result latencyLE := ⟨fun x y => le_total x.Latency y.Latency⟩

instance : IsTrans Result latencyLE :=
  ⟨fun _ _ _ hxy hyz => le_trans (α := Int) hxy hyz⟩

/-- Two outcomes that agree on everything the latency figures are computed
from and on the figures themselves: the panic, the `Latency` map, the
counters and the sequence of latencies of the sample. -/
structure Sim (o1 o2 : Outcome) : Prop where
  panic : o1.panic = o2.panic
  latency : o1.stats.Latency = o2.stats.Latency
  count : o1.stats.Count = o2.stats.Count
  sumLatency : o1.stats.SumLatency = o2.stats.SumLatency
  sumBytes : o1.stats.SumBytes = o2.stats.SumBytes
  points : o1.stats.DataPoints.map (fun r => r.Latency) =
    o2.stats.DataPoints.map (fun r => r.Latency)

/-- An insertion sort by latency, one implementation of the contract. -/
def insertionSorter : Sorter where
  sort := List.insertionSort latencyLE
  perm := fun l => List.perm_insertionSort latencyLE l
  sorted := fun l =>
    (List.sorted_insertionSort latencyLE l).imp
      (fun hxy => not_lt.mpr hxy)

/-- The state after feeding `rs` one by one through `Update`; `clock k` is
the value of `time.Now()` in the `k`-th call. -/
def feed (clock : Nat → Int) : Stats → List Result → Stats
  | s, [] => s
  | s, r :: rs => feed (fun k => clock (k + 1)) (s.Update r (clock 0)) rs

/-- The scenario of four Results: sizes 10, 20, 30, 40 and latencies 1 ms,
2 ms, 3 ms, 4 ms. -/
def sample4 : List Result :=
  [⟨1000000, 10⟩, ⟨2000000, 20⟩, ⟨3000000, 30⟩, ⟨4000000, 40⟩]

/-- A single Result of 10 bytes with a latency of 1 ms. -/
def sample1 : List Result := [⟨1000000, 10⟩]

/-- Four Results whose latency is the largest `time.Duration`: their sum
does not fit `uint64`. -/
def sampleWrap : List Result := List.replicate 4 ⟨2 ^ 63 - 1, 0⟩

/-- Four Results with a negative latency of 1 ms. -/
def sampleNeg : List Result := List.replicate 4 ⟨-1000000, 0⟩

/-- The avg figure as the specification words it: the sum of the latencies
in nanoseconds divided by the count, in milliseconds. -/
def specAvg (rs : List Result) : F64 :=
  F64.div
    (F64.div (F64.ofInt64 (rs.map (fun r => r.Latency)).sum) (F64.ofUInt64 rs.length))
    (F64.ofDecimal 1000000 1)

/-- A call of `Refresh` or `Update` on a `Stats`. -/
inductive Op where
  | update (result : Result) (now : Int)
  | refresh

/-- Number of `Update` calls in a sequence of calls. -/
def updates : List Op → Nat
  | [] => 0
  | .update _ _ :: ops => updates ops + 1
  | .refresh :: ops => updates ops

/-- Runs a sequence of calls on `stats`, stopping at the first one that
panics. -/
def run (S : Sorter) : Stats → List Op → Outcome
  | s, [] => ⟨s, none⟩
  | s, .update r now :: ops => run S (s.Update r now) ops
  | s, .refresh :: ops =>
    match (s.Refresh S).panic with
    | some i => ⟨(s.Refresh S).stats, some i⟩
    | none => run S (s.Refresh S).stats ops

/-! ## main.go: the job feeders -/

/-- The method `ForEach` of an iterator: calls `cb` on each element in turn
until one call returns an error; the flag tells whether one did. -/
def forEach {σ α : Type} (cb : σ → α → σ × Bool) : σ → List α → σ × Bool
  | s, [] => (s, false)
  | s, x :: xs =>
    match cb s x with
    | (s1, true) => (s1, true)
    | (s1, false) => forEach cb s1 xs

/-- A commit of the history, as `FeedUpload` reads it: `m = none` when
`c.File("m")` fails, `m = some none` when `file.Contents()` fails, and
`m = some (some text)` when both succeed. -/
structure Commit where
  m : Option (Option String)
  deriving DecidableEq, Repr

/-- The payload of a commit whose extraction succeeds. -/
def Commit.payload (c : Commit) : Option String := c.m.join

/-- The jobs the specification asks of the upload feeder for a bound
`M > 0`: the payloads of the first `M` entries whose extraction succeeds. -/
def specUploadJobs (history : List Commit) (M : Nat) : List String :=
  (history.filterMap Commit.payload).take M

/-- The job channel as its feeder leaves it, with the feeder's counter. -/
structure Feed where
  jobs : List String
  midx : Nat
  closed : Bool
  deriving DecidableEq, Repr

/-- The counting pass of `FeedUpload`: the value of the global
`messagecount` after it. -/
def countPass (history : List Commit) (maxmessages messagecount : Nat) : Nat :=
  (forEach (fun (n : Nat) (_ : Commit) =>
      let n1 := (n + 1) % 2 ^ 64
      (n1, decide (n1 ≥ maxmessages)))
    messagecount history).1

/-- The callback of the second pass of `FeedUpload`. -/
def uploadCallback (maxmessages : Nat) (f : Feed) (c : Commit) : Feed × Bool :=
  let midx := (f.midx + 1) % 2 ^ 64
  let jobs :=
    match c.m with
    | some (some messagecontent) => f.jobs ++ [messagecontent]
    | _ => f.jobs
  ({ f with jobs := jobs, midx := midx },
    decide (maxmessages ≠ 0 ∧ midx ≥ maxmessages))

/-- The function `FeedUpload`, after the repository was opened: `history`
is the log from `HEAD`, read once by each pass. Returns the job channel and
the global `messagecount`. -/
def FeedUpload (history : List Commit) (maxmessages messagecount : Nat) :
    Feed × Nat :=
  let counted := countPass history maxmessages messagecount
  let f := (forEach (uploadCallback maxmessages) ⟨[], 0, false⟩ history).1
  ({ f with closed := true }, counted)

/-- The method `S3.ListObjects`: `pages` are the pages of the listing for the
prefix, each with its keys; the callback runs on every key until it returns
an error. -/
def ListObjects {σ : Type} (pages : List (List String))
    (callback : σ → String → σ × Bool) (s : σ) : σ × Bool :=
  forEach (fun s1 page => forEach callback s1 page) s pages

/-- The callback of `FeedDownload`. -/
def downloadCallback (maxmessages : Nat) (f : Feed) (key : String) : Feed × Bool :=
  let midx := (f.midx + 1) % 2 ^ 64
  ({ f with jobs := f.jobs ++ [key], midx := midx },
    decide (maxmessages ≠ 0 ∧ midx ≥ maxmessages))

/-- The function `FeedDownload`; `pages` is the listing of the prefix
`"s3bench/"`. -/
def FeedDownload (pages : List (List String)) (maxmessages : Nat) : Feed :=
  let f := (ListObjects pages (downloadCallback maxmessages) ⟨[], 0, false⟩).1
  { f with closed := true }

/-! ## s3.go: the workers -/

/-- A worker when its loop ends: its failure count, the Results it sent in
order, the number of jobs it received, and the message of the panic that
ended it, if any. -/
structure Worker where
  errcount : Int
  results : List Result
  received : Nat
  panic : Option String
  deriving DecidableEq, Repr

/-- The formatting verb `%s` applied to an `error`: its text, or the
marker of `fmt` for a nil value. -/
def fmtS : Option String → String
  | some e => e
  | none => "%!s(<nil>)"

/-- A job of the upload worker with what its request does: `err` is the
error of `putReq.Send()` and `elapsed` the time measured around the call.
The key, a SHA-1 digest of the content, plays no part in what the worker
sends or counts and is left out. -/
structure PutJob where
  messagecontent : String
  err : Option String
  elapsed : Int
  deriving DecidableEq, Repr

/-- The loop of `S3.UploadWorker`. -/
def uploadLoop : Worker → List PutJob → Worker
  | w, [] => w
  | w, j :: jobs =>
    let w1 : Worker := { w with received := w.received + 1 }
    match j.err with
    | none =>
      uploadLoop
        { w1 with results := w1.results ++ [⟨j.elapsed, j.messagecontent.utf8ByteSize⟩] }
        jobs
    | some e =>
      let errcount := w1.errcount + 1
      if errcount > 10 then
        { w1 with
          errcount := errcount
          panic := some ("s3: put: too many failures. Last: " ++ fmtS (some e)) }
      else uploadLoop { w1 with errcount := errcount } jobs

/-- The method `S3.UploadWorker`. -/
def UploadWorker (jobs : List PutJob) : Worker :=
  uploadLoop ⟨0, [], 0, none⟩ jobs

/-- A job of the delete worker with what its request does. -/
structure DeleteJob where
  key : String
  err : Option String
  elapsed : Int
  deriving DecidableEq, Repr

/-- The loop of `S3.DeleteWorker`. -/
def deleteLoop : Worker → List DeleteJob → Worker
  | w, [] => w
  | w, j :: jobs =>
    let w1 : Worker := { w with received := w.received + 1 }
    match j.err with
    | none => deleteLoop { w1 with results := w1.results ++ [⟨j.elapsed, 0⟩] } jobs
    | some e =>
      let errcount := w1.errcount + 1
      if errcount > 10 then
        { w1 with
          errcount := errcount
          panic := some ("s3: put: too many failures. Last: " ++ fmtS (some e)) }
      else deleteLoop { w1 with errcount := errcount } jobs

/-- The method `S3.DeleteWorker`. -/
def DeleteWorker (jobs : List DeleteJob) : Worker :=
  deleteLoop ⟨0, [], 0, none⟩ jobs

/-- One call of `resp.Body.Read` that does not report `io.EOF`: the number
of bytes it returns and its error, if any. -/
structure ReadCall where
  n : Int
  err : Option String
  deriving DecidableEq, Repr

/-- A job of the download worker with what its request does: `err` is the
error of `getReq.Send()`, `reads` the calls of `Body.Read` before the one that
reports `io.EOF`, and `last` the number of bytes of that one. A body that
never reports `io.EOF` keeps the source in its read loop for ever and is
not represented. -/
structure GetJob where
  key : String
  err : Option String
  reads : List ReadCall
  last : Int
  elapsed : Int
  deriving DecidableEq, Repr

/-- The read loop of `S3.DownloadWorker`: the final `size` and `errcount`. -/
def readBody (last : Int) : Int → Int → List ReadCall → Int × Int
  | size, errcount, [] => (size + last, errcount)
  | size, errcount, c :: cs =>
    match c.err with
    | none => readBody last (size + c.n) errcount cs
    | some _ => readBody last (size + c.n) (errcount + 1) cs

/-- The loop of `S3.DownloadWorker`; `err` is the variable declared before
the loop, which the loop body never assigns (its `:=` declare new ones). -/
def downloadLoop (err : Option String) : Worker → List GetJob → Worker
  | w, [] => w
  | w, j :: jobs =>
    let w1 : Worker := { w with received := w.received + 1 }
    if w1.errcount > 10 then
      { w1 with panic := some ("s3: git: too many failures. Last: " ++ fmtS err) }
    else
      match j.err with
      | some _ => downloadLoop err { w1 with errcount := w1.errcount + 1 } jobs
      | none =>
        let (size, errcount) := readBody j.last 0 w1.errcount j.reads
        downloadLoop err
          { w1 with errcount := errcount, results := w1.results ++ [⟨j.elapsed, size⟩] }
          jobs

/-- The method `S3.DownloadWorker`. -/
def DownloadWorker (jobs : List GetJob) : Worker :=
  downloadLoop none ⟨0, [], 0, none⟩ jobs

/-! ## Properties of the binary64 model -/

theorem bitLen_zero (fuel : Nat) : bitLen fuel 0 = 0 := by
  cases fuel <;> simp [bitLen]

theorem bitLen_spec (fuel n : Nat) (h : n ≤ fuel) (hn : 0 < n) :
    1 ≤ bitLen fuel n ∧ 2 ^ (bitLen fuel n - 1) ≤ n ∧ n < 2 ^ bitLen fuel n := by
  induction fuel generalizing n with
  | zero => omega
  | succ fuel ih =>
    have hne : n ≠ 0 := by omega
    simp only [bitLen, if_neg hne]
    by_cases h2 : n / 2 = 0
    · rw [h2, bitLen_zero]
      have : n = 1 := by omega
      subst this
      simp
    · obtain ⟨h1, hlo, hhi⟩ := ih (n / 2) (by omega) (by omega)
      refine ⟨by omega, ?_, ?_⟩
      · simp only [Nat.add_sub_cancel]
        have : 2 ^ bitLen fuel (n / 2) = 2 * 2 ^ (bitLen fuel (n / 2) - 1) := by
          rw [← pow_succ']
          congr 1
          omega
        omega
      · rw [pow_succ]
        omega

theorem rne_bounds (t : ℚ) : ⌊t⌋₊ ≤ rne t ∧ rne t ≤ ⌊t⌋₊ + 1 := by
  unfold rne
  split_ifs <;> omega

theorem rne_mono (t u : ℚ) (h : t ≤ u) : rne t ≤ rne u := by
  have hq : ⌊t⌋₊ ≤ ⌊u⌋₊ := Nat.floor_mono h
  rcases Nat.lt_or_eq_of_le hq with hlt | heq
  · exact le_trans (rne_bounds t).2 (le_trans hlt (rne_bounds u).1)
  · unfold rne
    rw [← heq]
    split_ifs <;> first | omega | (exfalso; linarith)

theorem rne_natCast (n : ℕ) : rne (n : ℚ) = n := by
  unfold rne
  simp

theorem scale_cast (a b : ℕ) (k : ℤ) :
    ((a * 2 ^ (-k).toNat : ℕ) : ℚ) / ((b * 2 ^ k.toNat : ℕ) : ℚ) = (a : ℚ) / b / (2 : ℚ) ^ k := by
  obtain ⟨n, rfl | rfl⟩ := Int.eq_nat_or_neg k
  · have h1 : (-(n : ℤ)).toNat = 0 := by omega
    simp only [h1, Int.toNat_ofNat, pow_zero, mul_one, zpow_natCast]
    push_cast
    rw [div_div]
  · have h1 : (-(-(n : ℤ))).toNat = n := by omega
    have h2 : (-(n : ℤ)).toNat = 0 := by omega
    simp only [h1, h2, pow_zero, mul_one, zpow_neg, zpow_natCast]
    push_cast
    field_simp

theorem nat_rne (A B : ℕ) (hB : 0 < B) :
    (if 2 * (A % B) < B then A / B
      else if B < 2 * (A % B) then A / B + 1
      else if (A / B) % 2 = 0 then A / B else A / B + 1) = rne ((A : ℚ) / B) := by
  have hBq : (0 : ℚ) < B := by exact_mod_cast hB
  have hfloor : ⌊(A : ℚ) / B⌋₊ = A / B := Nat.floor_div_eq_div A B
  have hfrac : (A : ℚ) / B - ((A / B : ℕ) : ℚ) = ((A % B : ℕ) : ℚ) / B := by
    have h := Nat.div_add_mod A B
    have h2 : (A : ℚ) = B * ((A / B : ℕ) : ℚ) + ((A % B : ℕ) : ℚ) := by exact_mod_cast h.symm
    field_simp
    linarith
  unfold rne
  rw [hfloor, hfrac]
  have e1 : (2 * (((A % B : ℕ) : ℚ) / B) < 1) ↔ 2 * (A % B) < B := by
    rw [← mul_div_assoc, div_lt_one hBq]
    exact_mod_cast Iff.rfl
  have e2 : (1 < 2 * (((A % B : ℕ) : ℚ) / B)) ↔ B < 2 * (A % B) := by
    rw [← mul_div_assoc, one_lt_div hBq]
    exact_mod_cast Iff.rfl
  simp only [e1, e2]

theorem roundSig_eq (a b : ℕ) (k : ℤ) (hb : 0 < b) :
    roundSig a b k = rne ((a : ℚ) / b / (2 : ℚ) ^ k) := by
  unfold roundSig
  simp only []
  rw [nat_rne _ _ (Nat.mul_pos hb (pow_pos (by norm_num) _)), scale_cast]

theorem roundExp_spec (a b : ℕ) (ha : 0 < a) (hb : 0 < b) :
    -1074 ≤ roundExp a b ∧ (a : ℚ) / b < (2 : ℚ) ^ (roundExp a b + 53) ∧
      (-1074 < roundExp a b → (2 : ℚ) ^ (roundExp a b + 52) ≤ (a : ℚ) / b) := by
  obtain ⟨ha1, halo, hahi⟩ := bitLen_spec a a le_rfl ha
  obtain ⟨hb1, hblo, hbhi⟩ := bitLen_spec b b le_rfl hb
  have hbq : (0 : ℚ) < b := by exact_mod_cast hb
  have haq : (0 : ℚ) < a := by exact_mod_cast ha
  have two_pos : ∀ z : ℤ, (0 : ℚ) < (2 : ℚ) ^ z := fun z => zpow_pos (by norm_num) z
  -- bounds of a and b as powers with integer exponents
  have halo' : (2 : ℚ) ^ ((bitLen a a : ℤ) - 1) ≤ a := by
    have : ((bitLen a a : ℤ) - 1) = ((bitLen a a - 1 : ℕ) : ℤ) := by omega
    rw [this, zpow_natCast]
    exact_mod_cast halo
  have hahi' : (a : ℚ) < (2 : ℚ) ^ (bitLen a a : ℤ) := by
    rw [zpow_natCast]
    exact_mod_cast hahi
  have hblo' : (2 : ℚ) ^ ((bitLen b b : ℤ) - 1) ≤ b := by
    have : ((bitLen b b : ℤ) - 1) = ((bitLen b b - 1 : ℕ) : ℤ) := by omega
    rw [this, zpow_natCast]
    exact_mod_cast hblo
  have hbhi' : (b : ℚ) < (2 : ℚ) ^ (bitLen b b : ℤ) := by
    rw [zpow_natCast]
    exact_mod_cast hbhi
  have hk : ∀ (k0 : ℤ), k0 = (bitLen a a : ℤ) - (bitLen b b : ℤ) - 52 →
      (2 : ℚ) ^ (k0 + 51) < (a : ℚ) / b ∧ (a : ℚ) / b < (2 : ℚ) ^ (k0 + 53) := by
    intro k0 hk0
    constructor
    · rw [lt_div_iff₀ hbq]
      calc (2 : ℚ) ^ (k0 + 51) * b < (2 : ℚ) ^ (k0 + 51) * (2 : ℚ) ^ (bitLen b b : ℤ) :=
            mul_lt_mul_of_pos_left hbhi' (two_pos _)
        _ = (2 : ℚ) ^ ((bitLen a a : ℤ) - 1) := by
            rw [← zpow_add₀ (by norm_num : (2 : ℚ) ≠ 0)]
            congr 1
            omega
        _ ≤ a := halo'
    · rw [div_lt_iff₀ hbq]
      calc (a : ℚ) < (2 : ℚ) ^ (bitLen a a : ℤ) := hahi'
        _ = (2 : ℚ) ^ (k0 + 53) * (2 : ℚ) ^ ((bitLen b b : ℤ) - 1) := by
            rw [← zpow_add₀ (by norm_num : (2 : ℚ) ≠ 0)]
            congr 1
            omega
        _ ≤ (2 : ℚ) ^ (k0 + 53) * b := mul_le_mul_of_nonneg_left hblo' (le_of_lt (two_pos _))
  obtain ⟨hlo, hhi⟩ := hk _ rfl
  have hq0 : ∀ k0 : ℤ, ((a * 2 ^ (-k0).toNat) / (b * 2 ^ k0.toNat) < 2 ^ 52) ↔
      (a : ℚ) / b < (2 : ℚ) ^ (k0 + 52) := by
    intro k0
    rw [← Nat.floor_div_eq_div (α := ℚ), scale_cast]
    have hnn : (0 : ℚ) ≤ (a : ℚ) / b / (2 : ℚ) ^ k0 :=
      le_of_lt (div_pos (div_pos haq hbq) (two_pos _))
    rw [Nat.floor_lt hnn, div_lt_iff₀ (two_pos _)]
    rw [zpow_add₀ (by norm_num : (2 : ℚ) ≠ 0), mul_comm]
    norm_num
  unfold roundExp
  simp only [hq0]
  have mono2 : ∀ {i j : ℤ}, i ≤ j → (2 : ℚ) ^ i ≤ (2 : ℚ) ^ j :=
    fun h => zpow_le_zpow_right₀ (by norm_num) h
  by_cases hc : (a : ℚ) / b < (2 : ℚ) ^ ((bitLen a a : ℤ) - (bitLen b b : ℤ) - 52 + 52)
  · simp only [if_pos hc]
    split_ifs with h2
    · refine ⟨le_refl _, lt_of_lt_of_le hc (mono2 (by omega)), fun h => absurd h (lt_irrefl _)⟩
    · refine ⟨by omega, ?_, fun _ => ?_⟩
      · have : (bitLen a a : ℤ) - (bitLen b b : ℤ) - 52 - 1 + 53 =
            (bitLen a a : ℤ) - (bitLen b b : ℤ) - 52 + 52 := by ring
        rw [this]; exact hc
      · have : (bitLen a a : ℤ) - (bitLen b b : ℤ) - 52 - 1 + 52 =
            (bitLen a a : ℤ) - (bitLen b b : ℤ) - 52 + 51 := by ring
        rw [this]; exact le_of_lt hlo
  · simp only [if_neg hc]
    split_ifs with h2
    · refine ⟨le_refl _, lt_of_lt_of_le hhi (mono2 (by omega)), fun h => absurd h (lt_irrefl _)⟩
    · exact ⟨by omega, hhi, fun _ => not_lt.mp hc⟩

theorem two_zpow_pos (z : ℤ) : (0 : ℚ) < (2 : ℚ) ^ z := zpow_pos (by norm_num) z

theorem two_zpow_mono {i j : ℤ} (h : i ≤ j) : (2 : ℚ) ^ i ≤ (2 : ℚ) ^ j :=
  zpow_le_zpow_right₀ (by norm_num) h

theorem rne_lt_of_lt (x : ℚ) (k : ℤ) (hx : 0 ≤ x) (h : x < (2 : ℚ) ^ (k + 53)) :
    rne (x / (2 : ℚ) ^ k) ≤ 2 ^ 53 := by
  have hnn : (0 : ℚ) ≤ x / (2 : ℚ) ^ k := div_nonneg hx (le_of_lt (two_zpow_pos k))
  have hlt : ⌊x / (2 : ℚ) ^ k⌋₊ < 2 ^ 53 := by
    rw [Nat.floor_lt hnn, div_lt_iff₀ (two_zpow_pos k)]
    rw [zpow_add₀ (by norm_num : (2 : ℚ) ≠ 0), mul_comm] at h
    norm_num at h ⊢
    exact h
  have := (rne_bounds (x / (2 : ℚ) ^ k)).2
  omega

theorem rne_ge_of_ge (x : ℚ) (k : ℤ) (h : (2 : ℚ) ^ (k + 52) ≤ x) :
    2 ^ 52 ≤ rne (x / (2 : ℚ) ^ k) := by
  have hge : 2 ^ 52 ≤ ⌊x / (2 : ℚ) ^ k⌋₊ := by
    apply Nat.le_floor
    rw [le_div_iff₀ (two_zpow_pos k)]
    rw [zpow_add₀ (by norm_num : (2 : ℚ) ≠ 0), mul_comm] at h
    norm_num at h ⊢
    linarith
  have := (rne_bounds (x / (2 : ℚ) ^ k)).1
  omega

theorem rval_mono (a b a' b' : ℕ) (ha : 0 < a) (hb : 0 < b) (hb' : 0 < b')
    (h : a * b' ≤ a' * b) : rval a b ≤ rval a' b' := by
  have ha' : 0 < a' := by
    rcases Nat.eq_zero_or_pos a' with h0 | h0
    · rw [h0, Nat.zero_mul] at h
      have := Nat.mul_pos ha hb'
      omega
    · exact h0
  have hbq : (0 : ℚ) < b := by exact_mod_cast hb
  have hbq' : (0 : ℚ) < b' := by exact_mod_cast hb'
  have hxy : (a : ℚ) / b ≤ (a' : ℚ) / b' := by
    rw [div_le_div_iff₀ hbq hbq']
    exact_mod_cast h
  have hx0 : (0 : ℚ) < (a : ℚ) / b := div_pos (by exact_mod_cast ha) hbq
  have hy0 : (0 : ℚ) < (a' : ℚ) / b' := div_pos (by exact_mod_cast ha') hbq'
  obtain ⟨k1, kx, kl⟩ := roundExp_spec a b ha hb
  obtain ⟨k1', kx', kl'⟩ := roundExp_spec a' b' ha' hb'
  unfold rval
  rw [roundSig_eq a b _ hb, roundSig_eq a' b' _ hb']
  rcases lt_trichotomy (roundExp a b) (roundExp a' b') with hlt | heq | hgt
  · have h1 := rne_lt_of_lt _ _ (le_of_lt hx0) kx
    have h2 := rne_ge_of_ge _ _ (kl' (by omega))
    calc ((rne ((a : ℚ) / b / (2 : ℚ) ^ roundExp a b) : ℕ) : ℚ) * (2 : ℚ) ^ roundExp a b
        ≤ ((2 ^ 53 : ℕ) : ℚ) * (2 : ℚ) ^ roundExp a b :=
          mul_le_mul_of_nonneg_right (by exact_mod_cast h1) (le_of_lt (two_zpow_pos _))
      _ = (2 : ℚ) ^ (roundExp a b + 53) := by
          rw [zpow_add₀ (by norm_num : (2 : ℚ) ≠ 0), mul_comm]; norm_num
      _ ≤ (2 : ℚ) ^ (roundExp a' b' + 52) := two_zpow_mono (by omega)
      _ = ((2 ^ 52 : ℕ) : ℚ) * (2 : ℚ) ^ roundExp a' b' := by
          rw [zpow_add₀ (by norm_num : (2 : ℚ) ≠ 0), mul_comm]; norm_num
      _ ≤ _ := mul_le_mul_of_nonneg_right (by exact_mod_cast h2) (le_of_lt (two_zpow_pos _))
  · rw [heq]
    apply mul_le_mul_of_nonneg_right _ (le_of_lt (two_zpow_pos _))
    have := rne_mono _ _ (div_le_div_of_nonneg_right hxy (le_of_lt (two_zpow_pos (roundExp a' b'))))
    exact_mod_cast this
  · exfalso
    have h1 := kl (by omega)
    have h2 : (a' : ℚ) / b' < (2 : ℚ) ^ (roundExp a b + 52) :=
      lt_of_lt_of_le kx' (two_zpow_mono (by omega))
    linarith

theorem two_zpow_lt {i j : ℤ} (h : (2 : ℚ) ^ i < (2 : ℚ) ^ j) : i < j := by
  by_contra hc
  exact absurd (two_zpow_mono (not_lt.mp hc)) (not_le.mpr h)

theorem rval_nat (n : ℕ) (hn : 0 < n) (h : n < 2 ^ 53) : rval n 1 = n := by
  obtain ⟨_, kx, kl⟩ := roundExp_spec n 1 hn Nat.one_pos
  have hk0 : roundExp n 1 ≤ 0 := by
    by_contra hc
    have h1 := kl (by omega)
    simp only [Nat.cast_one, div_one] at h1
    have h2 : (n : ℚ) < (2 : ℚ) ^ (53 : ℤ) := by
      have : ((2 : ℚ) ^ (53 : ℤ)) = ((2 ^ 53 : ℕ) : ℚ) := by norm_num
      rw [this]; exact_mod_cast h
    have := two_zpow_lt (lt_of_le_of_lt h1 h2)
    omega
  unfold rval
  rw [roundSig_eq n 1 _ Nat.one_pos]
  have ht : (n : ℚ) / (1 : ℕ) / (2 : ℚ) ^ roundExp n 1 =
      ((n * 2 ^ (-roundExp n 1).toNat : ℕ) : ℚ) := by
    rw [← scale_cast n 1 (roundExp n 1)]
    have : (roundExp n 1).toNat = 0 := by omega
    rw [this]
    simp
  rw [ht, rne_natCast, ← ht]
  simp only [Nat.cast_one, div_one]
  rw [div_mul_cancel₀ _ (ne_of_gt (two_zpow_pos _))]

theorem pack_val (neg : Bool) (q : ℕ) (k : ℤ) (hk : k ≤ 970) :
    ∃ m e, pack neg q k = .finite neg m e ∧ (m : ℚ) * (2 : ℚ) ^ e = (q : ℚ) * (2 : ℚ) ^ k := by
  unfold pack
  by_cases h0 : q = 0
  · exact ⟨0, 0, by simp [h0], by simp [h0]⟩
  · by_cases h1 : q = 2 ^ 53
    · refine ⟨2 ^ 52, k + 1, ?_, ?_⟩
      · rw [if_neg h0, if_pos h1, if_neg (by omega)]
      · rw [h1, zpow_add₀ (by norm_num : (2 : ℚ) ≠ 0)]
        push_cast
        ring
    · exact ⟨q, k, by rw [if_neg h0, if_neg h1, if_neg (by omega)], rfl⟩

theorem roundRat_val (neg : Bool) (a b : ℕ) (ha : 0 < a) (hb : 0 < b)
    (hU : (a : ℚ) / b < (2 : ℚ) ^ (1000 : ℤ)) :
    ∃ m e, roundRat neg a b = .finite neg m e ∧ (m : ℚ) * (2 : ℚ) ^ e = rval a b := by
  obtain ⟨_, kx, kl⟩ := roundExp_spec a b ha hb
  have hk : roundExp a b ≤ 970 := by
    by_contra hc
    have := two_zpow_lt (lt_of_le_of_lt (kl (by omega)) hU)
    omega
  obtain ⟨m, e, h1, h2⟩ := pack_val neg (roundSig a b (roundExp a b)) _ hk
  refine ⟨m, e, ?_, h2⟩
  unfold roundRat
  rw [if_neg (by omega), h1]

theorem two_pow_toNat (d : ℤ) (hd : 0 ≤ d) : ((2 ^ d.toNat : ℕ) : ℚ) = (2 : ℚ) ^ d := by
  obtain ⟨n, rfl⟩ := Int.eq_ofNat_of_zero_le hd
  simp

theorem le_finite_iff (s t : Bool) (m n : ℕ) (e f : ℤ) :
    F64.le (.finite s m e) (.finite t n f) = true ↔
      F64.toRat (.finite s m e) ≤ F64.toRat (.finite t n f) := by
  have key : ∀ (g : ℤ), g ≤ e → g ≤ f →
      (((if s then -1 else 1) * ((m * 2 ^ (e - g).toNat : ℕ) : ℤ) ≤
        (if t then -1 else 1) * ((n * 2 ^ (f - g).toNat : ℕ) : ℤ)) ↔
      (if s then -1 else 1) * (m : ℚ) * (2 : ℚ) ^ e ≤
        (if t then -1 else 1) * (n : ℚ) * (2 : ℚ) ^ f) := by
    intro g hge hgf
    have h1 : (2 : ℚ) ^ e = (2 : ℚ) ^ (e - g) * (2 : ℚ) ^ g := by
      rw [← zpow_add₀ (by norm_num : (2 : ℚ) ≠ 0)]; congr 1; ring
    have h2 : (2 : ℚ) ^ f = (2 : ℚ) ^ (f - g) * (2 : ℚ) ^ g := by
      rw [← zpow_add₀ (by norm_num : (2 : ℚ) ≠ 0)]; congr 1; ring
    rw [h1, h2, ← two_pow_toNat (e - g) (by omega), ← two_pow_toNat (f - g) (by omega)]
    rw [← mul_assoc, ← mul_assoc, mul_le_mul_right (two_zpow_pos g)]
    rw [← Int.cast_le (R := ℚ)]
    cases s <;> cases t <;> simp
  unfold F64.le F64.toRat
  simp only [decide_eq_true_eq]
  by_cases h : e ≤ f
  · simp only [if_pos h]
    exact key e le_rfl h
  · simp only [if_neg h]
    exact key f (by omega) le_rfl

theorem toInt_finite (m : ℕ) (e : ℤ) (h : (m : ℚ) * (2 : ℚ) ^ e < (2 : ℚ) ^ (63 : ℤ)) :
    F64.toInt (.finite false m e) = (⌊(m : ℚ) * (2 : ℚ) ^ e⌋₊ : ℤ) := by
  have hfl : m * 2 ^ e.toNat / 2 ^ (-e).toNat = ⌊(m : ℚ) * (2 : ℚ) ^ e⌋₊ := by
    have h1 := scale_cast m 1 (-e)
    simp only [neg_neg, one_mul, Nat.cast_one, div_one, zpow_neg, div_inv_eq_mul] at h1
    rw [← h1, Nat.floor_div_eq_div]
  have hlt : ⌊(m : ℚ) * (2 : ℚ) ^ e⌋₊ < 2 ^ 63 := by
    rw [Nat.floor_lt (mul_nonneg (Nat.cast_nonneg _) (le_of_lt (two_zpow_pos e)))]
    have : ((2 ^ 63 : ℕ) : ℚ) = (2 : ℚ) ^ (63 : ℤ) := by norm_num
    rw [this]; exact h
  unfold F64.toInt
  simp only [hfl, Bool.false_eq_true, if_false]
  rw [if_pos]
  constructor
  · have : (0 : ℤ) ≤ (⌊(m : ℚ) * (2 : ℚ) ^ e⌋₊ : ℤ) := Int.natCast_nonneg _
    omega
  · exact_mod_cast hlt

theorem rval_nonneg (a b : ℕ) : 0 ≤ rval a b := by
  unfold rval
  exact mul_nonneg (Nat.cast_nonneg _) (le_of_lt (two_zpow_pos _))

theorem rval_le (a b : ℕ) (ha : 0 < a) (hb : 0 < b) : rval a b ≤ 2 * ((a : ℚ) / b) + 1 := by
  obtain ⟨k1, kx, kl⟩ := roundExp_spec a b ha hb
  have hx0 : (0 : ℚ) < (a : ℚ) / b := div_pos (by exact_mod_cast ha) (by exact_mod_cast hb)
  have hq := rne_lt_of_lt _ _ (le_of_lt hx0) kx
  have h1 : rval a b ≤ (2 : ℚ) ^ (roundExp a b + 53) := by
    unfold rval
    rw [roundSig_eq a b _ hb]
    calc ((rne ((a : ℚ) / b / (2 : ℚ) ^ roundExp a b) : ℕ) : ℚ) * (2 : ℚ) ^ roundExp a b
        ≤ ((2 ^ 53 : ℕ) : ℚ) * (2 : ℚ) ^ roundExp a b :=
          mul_le_mul_of_nonneg_right (by exact_mod_cast hq) (le_of_lt (two_zpow_pos _))
      _ = (2 : ℚ) ^ (roundExp a b + 53) := by
          rw [zpow_add₀ (by norm_num : (2 : ℚ) ≠ 0), mul_comm]; norm_num
  rcases eq_or_lt_of_le k1 with heq | hlt
  · have h2 : (2 : ℚ) ^ (roundExp a b + 53) ≤ (2 : ℚ) ^ (0 : ℤ) := two_zpow_mono (by omega)
    simp only [zpow_zero] at h2
    linarith
  · have h2 := kl hlt
    have h3 : (2 : ℚ) ^ (roundExp a b + 53) = 2 * (2 : ℚ) ^ (roundExp a b + 52) := by
      rw [← zpow_one_add₀ (by norm_num : (2 : ℚ) ≠ 0)]; congr 1; ring
    linarith

theorem rval_eq_rq (a b : ℕ) (ha : 0 < a) (hb : 0 < b) : rval a b = rq ((a : ℚ) / b) := by
  have hbq : (0 : ℚ) < b := by exact_mod_cast hb
  have hx0 : (0 : ℚ) < (a : ℚ) / b := div_pos (by exact_mod_cast ha) hbq
  have hnum : 0 < ((a : ℚ) / b).num := Rat.num_pos.mpr hx0
  have hden : 0 < ((a : ℚ) / b).den := Rat.den_pos _
  have hcast : ((((a : ℚ) / b).num.natAbs : ℕ) : ℚ) = (((a : ℚ) / b).num : ℚ) := by
    rw [Nat.cast_natAbs, abs_of_pos hnum]
  have heq : ((((a : ℚ) / b).num.natAbs : ℕ) : ℚ) / (((a : ℚ) / b).den : ℚ) = (a : ℚ) / b := by
    rw [hcast]; exact Rat.num_div_den _
  have hdq : (0 : ℚ) < (((a : ℚ) / b).den : ℚ) := by exact_mod_cast hden
  have hcross : a * ((a : ℚ) / b).den = ((a : ℚ) / b).num.natAbs * b := by
    have := (div_eq_div_iff (ne_of_gt hdq) (ne_of_gt hbq)).mp heq
    exact_mod_cast this.symm
  have hna : 0 < ((a : ℚ) / b).num.natAbs := Int.natAbs_pos.mpr (ne_of_gt hnum)
  unfold rq
  apply le_antisymm
  · exact rval_mono _ _ _ _ ha hb hden (le_of_eq hcross)
  · exact rval_mono _ _ _ _ hna hden hb (le_of_eq hcross.symm)

theorem rq_mono (x y : ℚ) (hx : 0 < x) (h : x ≤ y) : rq x ≤ rq y := by
  have hy : 0 < y := lt_of_lt_of_le hx h
  have hxn : 0 < x.num := Rat.num_pos.mpr hx
  have hyn : 0 < y.num := Rat.num_pos.mpr hy
  unfold rq
  apply rval_mono _ _ _ _ (Int.natAbs_pos.mpr (ne_of_gt hxn)) (Rat.den_pos _) (Rat.den_pos _)
  have h1 : x.num * (y.den : ℤ) ≤ y.num * (x.den : ℤ) := by
    rw [← Rat.le_def]
    exact h
  have : ((x.num.natAbs * y.den : ℕ) : ℤ) ≤ ((y.num.natAbs * x.den : ℕ) : ℤ) := by
    push_cast
    rw [abs_of_pos hxn, abs_of_pos hyn]
    exact h1
  exact_mod_cast this

theorem rq_natCast (n : ℕ) (hn : 0 < n) (h : n < 2 ^ 53) : rq (n : ℚ) = n := by
  have := rval_eq_rq n 1 hn Nat.one_pos
  simp only [Nat.cast_one, div_one] at this
  rw [← this, rval_nat n hn h]

theorem rq_nonneg (x : ℚ) : 0 ≤ rq x := rval_nonneg _ _

theorem ofUInt64_val (n : ℕ) (hn : 0 < n) (h : n < 2 ^ 53) :
    ∃ m e, F64.ofUInt64 n = .finite false m e ∧ (m : ℚ) * (2 : ℚ) ^ e = n := by
  have hU : (n : ℚ) / (1 : ℕ) < (2 : ℚ) ^ (1000 : ℤ) := by
    simp only [Nat.cast_one, div_one]
    have h1 : (n : ℚ) < ((2 ^ 53 : ℕ) : ℚ) := by exact_mod_cast h
    have h2 : ((2 ^ 53 : ℕ) : ℚ) ≤ (2 : ℚ) ^ (1000 : ℤ) := by norm_num
    linarith
  obtain ⟨m, e, h1, h2⟩ := roundRat_val false n 1 hn Nat.one_pos hU
  exact ⟨m, e, h1, by rw [h2, rval_nat n hn h]⟩

theorem mul_val (m n : ℕ) (e f : ℤ) (hm : 0 < m) (hn : 0 < n)
    (hU : (m : ℚ) * (2 : ℚ) ^ e * ((n : ℚ) * (2 : ℚ) ^ f) < (2 : ℚ) ^ (1000 : ℤ)) :
    ∃ M E, F64.mul (.finite false m e) (.finite false n f) = .finite false M E ∧
      (M : ℚ) * (2 : ℚ) ^ E = rq ((m : ℚ) * (2 : ℚ) ^ e * ((n : ℚ) * (2 : ℚ) ^ f)) := by
  have hfrac : ((m * n * 2 ^ (e + f).toNat : ℕ) : ℚ) / ((2 ^ (-(e + f)).toNat : ℕ) : ℚ) =
      (m : ℚ) * (2 : ℚ) ^ e * ((n : ℚ) * (2 : ℚ) ^ f) := by
    have h1 := scale_cast (m * n) 1 (-(e + f))
    simp only [neg_neg, one_mul, Nat.cast_one, div_one, zpow_neg, div_inv_eq_mul] at h1
    rw [h1, zpow_add₀ (by norm_num : (2 : ℚ) ≠ 0)]
    push_cast
    ring
  have ha : 0 < m * n * 2 ^ (e + f).toNat :=
    Nat.mul_pos (Nat.mul_pos hm hn) (pow_pos (by norm_num) _)
  have hb : 0 < 2 ^ (-(e + f)).toNat := pow_pos (by norm_num) _
  obtain ⟨M, E, h1, h2⟩ := roundRat_val false _ _ ha hb (by rw [hfrac]; exact hU)
  refine ⟨M, E, ?_, ?_⟩
  · unfold F64.mul
    simpa using h1
  · rw [h2, rval_eq_rq _ _ ha hb, hfrac]

theorem div_val (s : Bool) (m n : ℕ) (e f : ℤ) (hm : 0 < m) (hn : 0 < n)
    (hU : (m : ℚ) * (2 : ℚ) ^ e / ((n : ℚ) * (2 : ℚ) ^ f) < (2 : ℚ) ^ (1000 : ℤ)) :
    ∃ M E, F64.div (.finite s m e) (.finite false n f) = .finite s M E ∧
      (M : ℚ) * (2 : ℚ) ^ E = rq ((m : ℚ) * (2 : ℚ) ^ e / ((n : ℚ) * (2 : ℚ) ^ f)) := by
  have hfrac : ((m * 2 ^ (e - f).toNat : ℕ) : ℚ) / ((n * 2 ^ (f - e).toNat : ℕ) : ℚ) =
      (m : ℚ) * (2 : ℚ) ^ e / ((n : ℚ) * (2 : ℚ) ^ f) := by
    have h1 := scale_cast m n (f - e)
    have h2 : -(f - e) = e - f := by ring
    rw [h2] at h1
    rw [h1, zpow_sub₀ (by norm_num : (2 : ℚ) ≠ 0)]
    have hn' : (n : ℚ) ≠ 0 := by exact_mod_cast (ne_of_gt hn)
    have h3 := ne_of_gt (two_zpow_pos e)
    have h4 := ne_of_gt (two_zpow_pos f)
    field_simp
  have ha : 0 < m * 2 ^ (e - f).toNat := Nat.mul_pos hm (pow_pos (by norm_num) _)
  have hb : 0 < n * 2 ^ (f - e).toNat := Nat.mul_pos hn (pow_pos (by norm_num) _)
  obtain ⟨M, E, h1, h2⟩ := roundRat_val s _ _ ha hb (by rw [hfrac]; exact hU)
  refine ⟨M, E, ?_, ?_⟩
  · unfold F64.div
    simp only [Nat.pos_iff_ne_zero.mp hn, if_false, Bool.xor_false]
    exact h1
  · rw [h2, rval_eq_rq _ _ ha hb, hfrac]

/-! ## Properties of the feeders -/

theorem forEach_append {σ α : Type} (cb : σ → α → σ × Bool) (s : σ) (xs ys : List α) :
    forEach cb s (xs ++ ys) =
      if (forEach cb s xs).2 then forEach cb s xs else forEach cb (forEach cb s xs).1 ys := by
  induction xs generalizing s with
  | nil => simp [forEach]
  | cons x xs ih =>
    simp only [List.cons_append, forEach]
    rcases h : cb s x with ⟨s1, b⟩
    cases b
    · exact ih s1
    · simp

theorem forEach_stop_snd {σ α : Type} (cb : σ → α → σ × Bool) (s : σ) (xs : List α)
    (h : (forEach cb s xs).2 = true) (ys : List α) :
    forEach cb s (xs ++ ys) = forEach cb s xs := by
  rw [forEach_append, if_pos h]

theorem ListObjects_eq_flatten {σ : Type} (pages : List (List String))
    (callback : σ → String → σ × Bool) (s : σ) :
    ListObjects pages callback s = forEach callback s pages.flatten := by
  unfold ListObjects
  induction pages generalizing s with
  | nil => simp [forEach]
  | cons p ps ih =>
    simp only [forEach, List.flatten_cons, forEach_append]
    rcases h : forEach callback s p with ⟨s1, b⟩
    cases b
    · simp [ih]
    · simp

theorem download_unbounded (keys : List String) (f : Feed) :
    (forEach (downloadCallback 0) f keys).1.jobs = f.jobs ++ keys := by
  induction keys generalizing f with
  | nil => simp [forEach]
  | cons k ks ih =>
    simp only [forEach, downloadCallback, ne_eq, not_true_eq_false, false_and, decide_False]
    rw [ih]
    simp

theorem download_bounded (M : Nat) (hM : M < 2 ^ 64) (keys : List String) (f : Feed)
    (hf : f.midx < M) :
    (forEach (downloadCallback M) f keys).1.jobs = f.jobs ++ keys.take (M - f.midx) := by
  induction keys generalizing f with
  | nil => simp [forEach]
  | cons k ks ih =>
    have hmod : (f.midx + 1) % 2 ^ 64 = f.midx + 1 := Nat.mod_eq_of_lt (by omega)
    have hsub : M - f.midx = (M - (f.midx + 1)) + 1 := by omega
    simp only [forEach, downloadCallback, hmod]
    by_cases hstop : M ≤ f.midx + 1
    · have h0 : M - (f.midx + 1) = 0 := by omega
      have hd : decide (M ≠ 0 ∧ f.midx + 1 ≥ M) = true := by
        simp only [decide_eq_true_eq]; exact ⟨by omega, hstop⟩
      rw [hd, hsub, h0]
      simp
    · have hd : decide (M ≠ 0 ∧ f.midx + 1 ≥ M) = false := by
        simp only [decide_eq_false_iff_not]; omega
      rw [hd]
      simp only
      rw [ih _ (by simpa using (by omega : f.midx + 1 < M)), hsub]
      simp

theorem upload_bounded (M : Nat) (hM : M < 2 ^ 64) (history : List Commit) (f : Feed)
    (hf : f.midx < M) :
    (forEach (uploadCallback M) f history).1.jobs =
      f.jobs ++ (history.take (M - f.midx)).filterMap Commit.payload := by
  induction history generalizing f with
  | nil => simp [forEach]
  | cons c cs ih =>
    have hmod : (f.midx + 1) % 2 ^ 64 = f.midx + 1 := Nat.mod_eq_of_lt (by omega)
    have hsub : M - f.midx = (M - (f.midx + 1)) + 1 := by omega
    have hjobs : (match c.m with
        | some (some messagecontent) => f.jobs ++ [messagecontent]
        | _ => f.jobs) = f.jobs ++ (c.payload).toList := by
      rcases c with ⟨_ | _ | t⟩ <;> simp [Commit.payload]
    simp only [forEach, uploadCallback, hmod, hjobs]
    by_cases hstop : M ≤ f.midx + 1
    · have h0 : M - (f.midx + 1) = 0 := by omega
      have hd : decide (M ≠ 0 ∧ f.midx + 1 ≥ M) = true := by
        simp only [decide_eq_true_eq]; exact ⟨by omega, hstop⟩
      rw [hd, hsub, h0]
      cases hp : c.payload <;> simp [hp]
    · have hd : decide (M ≠ 0 ∧ f.midx + 1 ≥ M) = false := by
        simp only [decide_eq_false_iff_not]; omega
      rw [hd]
      simp only
      rw [ih _ (by simpa using (by omega : f.midx + 1 < M)), hsub]
      cases hp : c.payload <;> simp [hp]

/-! ## Properties of the statistics -/

theorem feed_DataPoints (clock : Nat → Int) (s : Stats) (rs : List Result) :
    (feed clock s rs).DataPoints = s.DataPoints ++ rs := by
  induction rs generalizing s clock with
  | nil => simp [feed]
  | cons r rs ih => simp [feed, ih, Stats.Update]

theorem feed_Latency (clock : Nat → Int) (s : Stats) (rs : List Result) :
    (feed clock s rs).Latency = s.Latency := by
  induction rs generalizing s clock with
  | nil => simp [feed]
  | cons r rs ih => simp [feed, ih, Stats.Update]

theorem feed_Count (clock : Nat → Int) (s : Stats) (rs : List Result) :
    (feed clock s rs).Count % 2 ^ 64 = (s.Count + rs.length) % 2 ^ 64 := by
  induction rs generalizing s clock with
  | nil => simp [feed]
  | cons r rs ih =>
    simp only [feed, ih, Stats.Update, List.length_cons]
    omega

theorem feed_SumLatency (clock : Nat → Int) (s : Stats) (rs : List Result) :
    (feed clock s rs).SumLatency % 2 ^ 64 =
      (s.SumLatency + (rs.map (fun r => toUInt64 r.Latency)).sum) % 2 ^ 64 := by
  induction rs generalizing s clock with
  | nil => simp [feed]
  | cons r rs ih =>
    simp only [feed, ih, Stats.Update, List.map_cons, List.sum_cons]
    omega

theorem feed_SumBytes (clock : Nat → Int) (s : Stats) (rs : List Result) :
    (feed clock s rs).SumBytes % 2 ^ 64 =
      (s.SumBytes + (rs.map (fun r => toUInt64 r.Size)).sum) % 2 ^ 64 := by
  induction rs generalizing s clock with
  | nil => simp [feed]
  | cons r rs ih =>
    simp only [feed, ih, Stats.Update, List.map_cons, List.sum_cons]
    omega

theorem feed_lt (clock : Nat → Int) (s : Stats) (rs : List Result) (hne : rs ≠ []) :
    (feed clock s rs).Count < 2 ^ 64 ∧ (feed clock s rs).SumLatency < 2 ^ 64 ∧
      (feed clock s rs).SumBytes < 2 ^ 64 := by
  induction rs generalizing s clock with
  | nil => exact absurd rfl hne
  | cons r rs ih =>
    cases rs with
    | nil =>
      simp only [feed, Stats.Update]
      refine ⟨Nat.mod_lt _ (by norm_num), Nat.mod_lt _ (by norm_num), Nat.mod_lt _ (by norm_num)⟩
    | cons r2 rs2 =>
      exact ih (fun k => clock (k + 1)) (s.Update r (clock 0)) (by simp)

theorem index_map_latency (l1 l2 : List Result)
    (h : l1.map (fun r => r.Latency) = l2.map (fun r => r.Latency)) (i : Int) :
    (index l1 i).map (fun r => r.Latency) = (index l2 i).map (fun r => r.Latency) := by
  unfold index
  split
  · rfl
  · rw [← List.getElem?_map, ← List.getElem?_map, h]

theorem ms_congr (r1 r2 : Result) (h : r1.Latency = r2.Latency) : ms r1 = ms r2 := by
  unfold ms
  rw [h]

theorem storeAt_sim (key : Int) (f : Stats → Int) (o1 o2 : Outcome)
    (hf : ∀ s1 s2 : Stats, s1.Count = s2.Count →
      s1.DataPoints.map (fun r => r.Latency) = s2.DataPoints.map (fun r => r.Latency) →
      f s1 = f s2)
    (h : Sim o1 o2) : Sim (storeAt key f o1) (storeAt key f o2) := by
  have hp := h.panic
  have hi := hf o1.stats o2.stats h.count h.points
  have hx := index_map_latency _ _ h.points (f o1.stats)
  rw [hi] at hx
  unfold storeAt
  cases h2 : o2.panic with
  | some j =>
    rw [h2] at hp
    rw [hp]
    exact h
  | none =>
    rw [h2] at hp
    rw [hp]
    simp only
    cases hr1 : index o1.stats.DataPoints (f o1.stats) with
    | none =>
      rw [hi] at hr1
      rw [hr1] at hx
      cases hr2 : index o2.stats.DataPoints (f o2.stats) with
      | none =>
        simp only [hr1]
        exact ⟨by simp [hi], h.latency, h.count, h.sumLatency, h.sumBytes, h.points⟩
      | some r2 => rw [hr2] at hx; simp at hx
    | some r1 =>
      rw [hi] at hr1
      rw [hr1] at hx
      cases hr2 : index o2.stats.DataPoints (f o2.stats) with
      | none => rw [hr2] at hx; simp at hx
      | some r2 =>
        rw [hr2] at hx
        simp only [Option.map_some', Option.some.injEq] at hx
        simp only [hr1]
        refine ⟨by simp [hp, h2], ?_, h.count, h.sumLatency, h.sumBytes, h.points⟩
        simp only [setLatency, h.latency, ms_congr r1 r2 hx]

theorem sort_latency_sorted (S : Sorter) (l : List Result) :
    ((S.sort l).map (fun r => r.Latency)).Sorted (· ≤ ·) := by
  have h := S.sorted l
  rw [List.Sorted, List.pairwise_map]
  exact h.imp (fun hxy => not_lt.mp hxy)

theorem sort_latencies (S1 S2 : Sorter) (l1 l2 : List Result) (h : l1.Perm l2) :
    (S1.sort l1).map (fun r => r.Latency) = (S2.sort l2).map (fun r => r.Latency) := by
  apply List.eq_of_perm_of_sorted _ (sort_latency_sorted S1 l1) (sort_latency_sorted S2 l2)
  exact ((S1.perm l1).trans (h.trans (S2.perm l2).symm)).map _

theorem pctIndex_congr (a b : Nat) (s1 s2 : Stats) (h : s1.Count = s2.Count) :
    pctIndex s1 a b = pctIndex s2 a b := by
  unfold pctIndex
  rw [h]

theorem Refresh_of_zero (S : Sorter) (s : Stats) (h : s.Count ≤ 0) :
    s.Refresh S = ⟨s, none⟩ := by
  unfold Stats.Refresh
  rw [if_pos h]

theorem Refresh_of_pos (S : Sorter) (s : Stats) (h : ¬ s.Count ≤ 0) :
    s.Refresh S =
      (storeAt p99 (fun s => pctIndex s 99 100) <|
       storeAt p90 (fun s => pctIndex s 90 100) <|
       storeAt p75 (fun s => pctIndex s 75 100) <|
       storeAt p50 (fun s => pctIndex s 5 10) <|
       storeAt p25 (fun s => pctIndex s 25 100) <|
       storeAt max (fun s => (s.DataPoints.length : Int) - 1) <|
       storeAt min (fun _ => 0)
        ⟨setLatency { s with DataPoints := S.sort s.DataPoints } avg
          (F64.div (F64.div (F64.ofUInt64 s.SumLatency) (F64.ofUInt64 s.Count))
            (F64.ofDecimal 1000000 1)), none⟩) := by
  unfold Stats.Refresh
  rw [if_neg h]

theorem Refresh_sim (S1 S2 : Sorter) (s1 s2 : Stats)
    (hc : s1.Count = s2.Count) (hl : s1.SumLatency = s2.SumLatency)
    (hb : s1.SumBytes = s2.SumBytes) (hL : s1.Latency = s2.Latency)
    (hp : s1.DataPoints.Perm s2.DataPoints) :
    (s1.Refresh S1).panic = (s2.Refresh S2).panic ∧
      (s1.Refresh S1).stats.Latency = (s2.Refresh S2).stats.Latency ∧
      (s1.Refresh S1).stats.Count = (s2.Refresh S2).stats.Count ∧
      (s1.Refresh S1).stats.SumLatency = (s2.Refresh S2).stats.SumLatency ∧
      (s1.Refresh S1).stats.SumBytes = (s2.Refresh S2).stats.SumBytes := by
  by_cases h0 : s1.Count ≤ 0
  · rw [Refresh_of_zero S1 s1 h0, Refresh_of_zero S2 s2 (hc ▸ h0)]
    exact ⟨rfl, hL, hc, hl, hb⟩
  · rw [Refresh_of_pos S1 s1 h0, Refresh_of_pos S2 s2 (hc ▸ h0)]
    have hs := sort_latencies S1 S2 _ _ hp
    have h0 : Sim
        ⟨setLatency { s1 with DataPoints := S1.sort s1.DataPoints } avg
          (F64.div (F64.div (F64.ofUInt64 s1.SumLatency) (F64.ofUInt64 s1.Count))
            (F64.ofDecimal 1000000 1)), none⟩
        ⟨setLatency { s2 with DataPoints := S2.sort s2.DataPoints } avg
          (F64.div (F64.div (F64.ofUInt64 s2.SumLatency) (F64.ofUInt64 s2.Count))
            (F64.ofDecimal 1000000 1)), none⟩ :=
      ⟨rfl, by simp only [setLatency, hL, hl, hc], hc, hl, hb, hs⟩
    have h1 := storeAt_sim min (fun _ => 0) _ _ (fun _ _ _ _ => rfl) h0
    have h2 := storeAt_sim max (fun s => (s.DataPoints.length : Int) - 1) _ _
      (fun s1 s2 _ hpts => by
        have := congrArg List.length hpts
        simp only [List.length_map] at this
        simp only [this]) h1
    have h3 := storeAt_sim p25 (fun s => pctIndex s 25 100) _ _
      (fun s1 s2 h _ => pctIndex_congr _ _ s1 s2 h) h2
    have h4 := storeAt_sim p50 (fun s => pctIndex s 5 10) _ _
      (fun s1 s2 h _ => pctIndex_congr _ _ s1 s2 h) h3
    have h5 := storeAt_sim p75 (fun s => pctIndex s 75 100) _ _
      (fun s1 s2 h _ => pctIndex_congr _ _ s1 s2 h) h4
    have h6 := storeAt_sim p90 (fun s => pctIndex s 90 100) _ _
      (fun s1 s2 h _ => pctIndex_congr _ _ s1 s2 h) h5
    have h7 := storeAt_sim p99 (fun s => pctIndex s 99 100) _ _
      (fun s1 s2 h _ => pctIndex_congr _ _ s1 s2 h) h6
    exact ⟨h7.panic, h7.latency, h7.count, h7.sumLatency, h7.sumBytes⟩

theorem storeAt_fields (key : Int) (f : Stats → Int) (o : Outcome) :
    (storeAt key f o).stats.DataPoints = o.stats.DataPoints ∧
      (storeAt key f o).stats.Count = o.stats.Count ∧
      (storeAt key f o).stats.SumLatency = o.stats.SumLatency ∧
      (storeAt key f o).stats.SumBytes = o.stats.SumBytes := by
  unfold storeAt
  split
  · exact ⟨rfl, rfl, rfl, rfl⟩
  · split <;> exact ⟨rfl, rfl, rfl, rfl⟩

theorem storeAt_latency_ne (key : Int) (f : Stats → Int) (o : Outcome) (k : Int)
    (hk : k ≠ key) : (storeAt key f o).stats.Latency k = o.stats.Latency k := by
  unfold storeAt
  split
  · rfl
  · split
    · rfl
    · simp [setLatency, hk]

theorem storeAt_some (key : Int) (f : Stats → Int) (o : Outcome) (r : Result)
    (hp : o.panic = none) (hr : index o.stats.DataPoints (f o.stats) = some r) :
    storeAt key f o = ⟨setLatency o.stats key (ms r), none⟩ := by
  unfold storeAt
  rw [hp]
  simp only [hr, hp]

theorem storeAt_none (key : Int) (f : Stats → Int) (o : Outcome)
    (hp : o.panic = none) (hr : index o.stats.DataPoints (f o.stats) = none) :
    storeAt key f o = ⟨o.stats, some (f o.stats)⟩ := by
  unfold storeAt
  rw [hp]
  simp only [hr]

theorem storeAt_panic (key : Int) (f : Stats → Int) (o : Outcome) (i : Int)
    (hp : o.panic = some i) : storeAt key f o = o := by
  unfold storeAt
  rw [hp]

theorem Refresh_fields (S : Sorter) (s : Stats) :
    (s.Refresh S).stats.DataPoints.Perm s.DataPoints ∧
      (s.Refresh S).stats.Count = s.Count ∧
      (s.Refresh S).stats.SumLatency = s.SumLatency ∧
      (s.Refresh S).stats.SumBytes = s.SumBytes := by
  by_cases h0 : s.Count ≤ 0
  · rw [Refresh_of_zero S s h0]
    exact ⟨List.Perm.refl _, rfl, rfl, rfl⟩
  · rw [Refresh_of_pos S s h0]
    simp only [storeAt_fields, setLatency, Function.comp, and_self, and_true]
    exact S.perm _

theorem index_zero_cons (x : Result) (t : List Result) : index (x :: t) 0 = some x := by
  simp [index]

theorem index_last (l : List Result) (hne : l ≠ []) :
    index l ((l.length : Int) - 1) = some (l.getLast hne) := by
  have hpos : 0 < l.length := List.length_pos.mpr hne
  unfold index
  have h1 : ¬ ((l.length : Int) - 1 < 0) := by omega
  rw [if_neg h1]
  have h2 : ((l.length : Int) - 1).toNat = l.length - 1 := by omega
  rw [h2, ← List.getLast?_eq_getElem?, List.getLast?_eq_getLast _ hne]

theorem sorted_head_le (S : Sorter) (l : List Result) (x : Result) (t : List Result)
    (h : S.sort l = x :: t) : ∀ r ∈ l, x.Latency ≤ r.Latency := by
  intro r hr
  have hs := S.sorted l
  rw [h] at hs
  have hmem : r ∈ x :: t := by rw [← h]; exact (S.perm l).mem_iff.mpr hr
  rcases List.mem_cons.mp hmem with rfl | hrt
  · exact le_refl _
  · exact not_lt.mp (List.rel_of_pairwise_cons hs hrt)

theorem sorted_le_last (S : Sorter) (l : List Result) (hne : S.sort l ≠ []) :
    ∀ r ∈ l, r.Latency ≤ ((S.sort l).getLast hne).Latency := by
  intro r hr
  have hs := S.sorted l
  have hmem : r ∈ S.sort l := (S.perm l).mem_iff.mpr hr
  have hrev : (S.sort l).reverse.Pairwise (fun x y => ¬ ByLatency.Less x y) :=
    List.pairwise_reverse.mpr hs
  have hhead : (S.sort l).reverse = (S.sort l).getLast hne :: (S.sort l).dropLast.reverse := by
    conv_lhs => rw [← List.dropLast_append_getLast hne]
    simp
  rw [hhead] at hrev
  have hmem2 : r ∈ (S.sort l).getLast hne :: (S.sort l).dropLast.reverse := by
    rw [← hhead]; exact List.mem_reverse.mpr hmem
  rcases List.mem_cons.mp hmem2 with h | h
  · rw [h]
  · exact not_lt.mp (List.rel_of_pairwise_cons hrev h)

theorem Refresh_min_max (S : Sorter) (s : Stats) (hne : s.DataPoints ≠ []) :
    ∃ lo hi : Result, lo ∈ s.DataPoints ∧ hi ∈ s.DataPoints ∧
      (∀ r ∈ s.DataPoints, lo.Latency ≤ r.Latency ∧ r.Latency ≤ hi.Latency) ∧
      (storeAt max (fun s => (s.DataPoints.length : Int) - 1) <|
        storeAt min (fun _ => 0)
          ⟨setLatency { s with DataPoints := S.sort s.DataPoints } avg
            (F64.div (F64.div (F64.ofUInt64 s.SumLatency) (F64.ofUInt64 s.Count))
              (F64.ofDecimal 1000000 1)), none⟩) =
        ⟨setLatency (setLatency (setLatency { s with DataPoints := S.sort s.DataPoints } avg
            (F64.div (F64.div (F64.ofUInt64 s.SumLatency) (F64.ofUInt64 s.Count))
              (F64.ofDecimal 1000000 1))) min (ms lo)) max (ms hi), none⟩ := by
  have hsne : S.sort s.DataPoints ≠ [] := by
    intro hnil
    have := (S.perm s.DataPoints).length_eq
    rw [hnil] at this
    exact hne (List.length_eq_zero.mp this.symm)
  obtain ⟨lo, t, hlt⟩ := List.exists_cons_of_ne_nil hsne
  refine ⟨lo, (S.sort s.DataPoints).getLast hsne, ?_, ?_, ?_, ?_⟩
  · exact (S.perm _).mem_iff.mp (by rw [hlt]; exact List.mem_cons_self _ _)
  · exact (S.perm _).mem_iff.mp (List.getLast_mem hsne)
  · intro r hr
    exact ⟨sorted_head_le S _ lo t hlt r hr, sorted_le_last S _ hsne r hr⟩
  · rw [storeAt_some min (fun _ => 0) _ lo rfl (by
      show index (S.sort s.DataPoints) 0 = some lo
      rw [hlt]; exact index_zero_cons lo t)]
    rw [storeAt_some max _ _ ((S.sort s.DataPoints).getLast hsne) rfl (by
      show index (S.sort s.DataPoints) (((S.sort s.DataPoints).length : Int) - 1) = _
      exact index_last _ hsne)]

theorem keys_ne :
    min ≠ p25 ∧ min ≠ p50 ∧ min ≠ p75 ∧ min ≠ p90 ∧ min ≠ p99 ∧
    max ≠ p25 ∧ max ≠ p50 ∧ max ≠ p75 ∧ max ≠ p90 ∧ max ≠ p99 ∧
    avg ≠ p25 ∧ avg ≠ p50 ∧ avg ≠ p75 ∧ avg ≠ p90 ∧ avg ≠ p99 ∧
    avg ≠ min ∧ avg ≠ max ∧ min ≠ max := by
  decide

theorem Refresh_figures (S : Sorter) (s : Stats) (h0 : ¬ s.Count ≤ 0)
    (hne : s.DataPoints ≠ []) :
    ∃ lo hi : Result, lo ∈ s.DataPoints ∧ hi ∈ s.DataPoints ∧
      (∀ r ∈ s.DataPoints, lo.Latency ≤ r.Latency ∧ r.Latency ≤ hi.Latency) ∧
      (s.Refresh S).stats.Latency min = some (ms lo) ∧
      (s.Refresh S).stats.Latency max = some (ms hi) ∧
      (s.Refresh S).stats.Latency avg =
        some (F64.div (F64.div (F64.ofUInt64 s.SumLatency) (F64.ofUInt64 s.Count))
          (F64.ofDecimal 1000000 1)) := by
  obtain ⟨lo, hi, hlo, hhi, hall, heq⟩ := Refresh_min_max S s hne
  obtain ⟨k1, k2, k3, k4, k5, k6, k7, k8, k9, k10, k11, k12, k13, k14, k15, k16, k17, k18⟩ :=
    keys_ne
  refine ⟨lo, hi, hlo, hhi, hall, ?_, ?_, ?_⟩
  · rw [Refresh_of_pos S s h0]
    simp only [Function.comp, storeAt_latency_ne _ _ _ _ k1, storeAt_latency_ne _ _ _ _ k2,
      storeAt_latency_ne _ _ _ _ k3, storeAt_latency_ne _ _ _ _ k4,
      storeAt_latency_ne _ _ _ _ k5]
    rw [heq]
    simp [setLatency, k18]
  · rw [Refresh_of_pos S s h0]
    simp only [Function.comp, storeAt_latency_ne _ _ _ _ k6, storeAt_latency_ne _ _ _ _ k7,
      storeAt_latency_ne _ _ _ _ k8, storeAt_latency_ne _ _ _ _ k9,
      storeAt_latency_ne _ _ _ _ k10]
    rw [heq]
    simp [setLatency]
  · rw [Refresh_of_pos S s h0]
    simp only [Function.comp, storeAt_latency_ne _ _ _ _ k11, storeAt_latency_ne _ _ _ _ k12,
      storeAt_latency_ne _ _ _ _ k13, storeAt_latency_ne _ _ _ _ k14,
      storeAt_latency_ne _ _ _ _ k15]
    rw [heq]
    simp [setLatency, k16, k17]

theorem feed_new (clock : Nat → Int) (title : String) (now : Int) (rs : List Result) :
    (feed clock (NewStats title now) rs).Count = rs.length % 2 ^ 64 ∧
      (feed clock (NewStats title now) rs).SumLatency =
        (rs.map (fun r => toUInt64 r.Latency)).sum % 2 ^ 64 ∧
      (feed clock (NewStats title now) rs).SumBytes =
        (rs.map (fun r => toUInt64 r.Size)).sum % 2 ^ 64 ∧
      (feed clock (NewStats title now) rs).Latency = (fun _ => none) ∧
      (feed clock (NewStats title now) rs).DataPoints = rs := by
  refine ⟨?_, ?_, ?_, ?_, ?_⟩
  · cases rs with
    | nil => rfl
    | cons r t =>
      have h1 := feed_Count clock (NewStats title now) (r :: t)
      have h2 := (feed_lt clock (NewStats title now) (r :: t) (by simp)).1
      rw [Nat.mod_eq_of_lt h2] at h1
      simpa [NewStats] using h1
  · cases rs with
    | nil => rfl
    | cons r t =>
      have h1 := feed_SumLatency clock (NewStats title now) (r :: t)
      have h2 := (feed_lt clock (NewStats title now) (r :: t) (by simp)).2.1
      rw [Nat.mod_eq_of_lt h2] at h1
      simpa [NewStats] using h1
  · cases rs with
    | nil => rfl
    | cons r t =>
      have h1 := feed_SumBytes clock (NewStats title now) (r :: t)
      have h2 := (feed_lt clock (NewStats title now) (r :: t) (by simp)).2.2
      rw [Nat.mod_eq_of_lt h2] at h1
      simpa [NewStats] using h1
  · rw [feed_Latency]; rfl
  · rw [feed_DataPoints]; rfl

theorem feed_Refresh_agree (S1 S2 : Sorter) (clock1 clock2 : Nat → Int)
    (title1 title2 : String) (now1 now2 : Int) (rs1 rs2 : List Result)
    (hperm : rs1.Perm rs2) :
    ((feed clock1 (NewStats title1 now1) rs1).Refresh S1).panic =
        ((feed clock2 (NewStats title2 now2) rs2).Refresh S2).panic ∧
      ((feed clock1 (NewStats title1 now1) rs1).Refresh S1).stats.Latency =
        ((feed clock2 (NewStats title2 now2) rs2).Refresh S2).stats.Latency ∧
      ((feed clock1 (NewStats title1 now1) rs1).Refresh S1).stats.Count =
        ((feed clock2 (NewStats title2 now2) rs2).Refresh S2).stats.Count ∧
      ((feed clock1 (NewStats title1 now1) rs1).Refresh S1).stats.SumLatency =
        ((feed clock2 (NewStats title2 now2) rs2).Refresh S2).stats.SumLatency ∧
      ((feed clock1 (NewStats title1 now1) rs1).Refresh S1).stats.SumBytes =
        ((feed clock2 (NewStats title2 now2) rs2).Refresh S2).stats.SumBytes := by
  obtain ⟨c1, l1, b1, m1, d1⟩ := feed_new clock1 title1 now1 rs1
  obtain ⟨c2, l2, b2, m2, d2⟩ := feed_new clock2 title2 now2 rs2
  apply Refresh_sim
  · rw [c1, c2, hperm.length_eq]
  · rw [l1, l2, (hperm.map _).sum_eq]
  · rw [b1, b2, (hperm.map _).sum_eq]
  · rw [m1, m2]
  · rw [d1, d2]; exact hperm

theorem Update_count_len (s : Stats) (r : Result) (now : Int)
    (h : s.Count = s.DataPoints.length) (hlen : s.DataPoints.length + 1 < 2 ^ 64) :
    (s.Update r now).Count = (s.Update r now).DataPoints.length := by
  simp only [Stats.Update, List.length_append, List.length_singleton, h]
  exact Nat.mod_eq_of_lt hlen

theorem Refresh_count_len (S : Sorter) (s : Stats) (h : s.Count = s.DataPoints.length) :
    (s.Refresh S).stats.Count = (s.Refresh S).stats.DataPoints.length := by
  obtain ⟨hp, hc, _, _⟩ := Refresh_fields S s
  rw [hc, hp.length_eq, h]

theorem run_count_len (S : Sorter) (ops : List Op) (s : Stats)
    (h : s.Count = s.DataPoints.length) (hlen : s.DataPoints.length + updates ops < 2 ^ 64) :
    (run S s ops).stats.Count = (run S s ops).stats.DataPoints.length ∧
      ((run S s ops).panic = none → (run S s ops).stats.Count = s.Count + updates ops) := by
  induction ops generalizing s with
  | nil => exact ⟨h, fun _ => rfl⟩
  | cons op ops ih =>
    cases op with
    | update r now =>
      simp only [updates] at hlen
      have hu := Update_count_len s r now h (by omega)
      have hl : (s.Update r now).DataPoints.length = s.DataPoints.length + 1 := by
        simp [Stats.Update]
      have := ih (s.Update r now) hu (by rw [hl]; omega)
      simp only [run, updates]
      refine ⟨this.1, fun hp => ?_⟩
      rw [this.2 hp, hu, hl, h]
      omega
    | refresh =>
      simp only [updates] at hlen
      have hr := Refresh_count_len S s h
      obtain ⟨hp, hc, _, _⟩ := Refresh_fields S s
      simp only [run, updates]
      cases hpanic : (s.Refresh S).panic with
      | some i => exact ⟨hr, fun hp => by simp at hp⟩
      | none =>
        have := ih (s.Refresh S).stats hr (by rw [hp.length_eq]; exact hlen)
        simp only
        refine ⟨this.1, fun hq => ?_⟩
        rw [this.2 hq, hc]

set_option maxRecDepth 100000 in
theorem pctIndex_p25_small (s : Stats) (h1 : 1 ≤ s.Count) (h3 : s.Count ≤ 3) :
    pctIndex s 25 100 = -1 := by
  unfold pctIndex
  have h : s.Count = 1 ∨ s.Count = 2 ∨ s.Count = 3 := by omega
  rcases h with h | h | h <;> rw [h] <;> decide

theorem Refresh_small (S : Sorter) (s : Stats) (h1 : 1 ≤ s.Count) (h3 : s.Count ≤ 3)
    (hne : s.DataPoints ≠ []) :
    (s.Refresh S).panic = some (-1) ∧
      (s.Refresh S).stats.Latency p25 = s.Latency p25 := by
  obtain ⟨lo, hi, _, _, _, heq⟩ := Refresh_min_max S s hne
  rw [Refresh_of_pos S s (by omega)]
  rw [heq]
  have hidx := pctIndex_p25_small s h1 h3
  have hnone : storeAt p25 (fun s => pctIndex s 25 100)
      ⟨setLatency (setLatency (setLatency { s with DataPoints := S.sort s.DataPoints } avg
            (F64.div (F64.div (F64.ofUInt64 s.SumLatency) (F64.ofUInt64 s.Count))
              (F64.ofDecimal 1000000 1))) min (ms lo)) max (ms hi), none⟩ =
      ⟨setLatency (setLatency (setLatency { s with DataPoints := S.sort s.DataPoints } avg
            (F64.div (F64.div (F64.ofUInt64 s.SumLatency) (F64.ofUInt64 s.Count))
              (F64.ofDecimal 1000000 1))) min (ms lo)) max (ms hi), some (-1)⟩ := by
    have hi2 : pctIndex (setLatency (setLatency (setLatency
        { s with DataPoints := S.sort s.DataPoints } avg
            (F64.div (F64.div (F64.ofUInt64 s.SumLatency) (F64.ofUInt64 s.Count))
              (F64.ofDecimal 1000000 1))) min (ms lo)) max (ms hi)) 25 100 = -1 := hidx
    rw [storeAt_none p25 _ _ rfl (by
      show index _ (pctIndex _ 25 100) = none
      rw [hi2]; simp [index])]
    simp only [hi2]
  rw [hnone]
  rw [storeAt_panic p50 _ _ (-1) rfl, storeAt_panic p75 _ _ (-1) rfl,
    storeAt_panic p90 _ _ (-1) rfl, storeAt_panic p99 _ _ (-1) rfl]
  refine ⟨rfl, ?_⟩
  simp [setLatency, show p25 ≠ max by decide, show p25 ≠ min by decide,
    show p25 ≠ avg by decide]

theorem sum_toUInt64 (rs : List Result) (hpos : ∀ r ∈ rs, 0 ≤ r.Latency)
    (hsum : (rs.map (fun r => r.Latency)).sum < 2 ^ 64) :
    0 ≤ (rs.map (fun r => r.Latency)).sum ∧
      ((rs.map (fun r => toUInt64 r.Latency)).sum : Int) = (rs.map (fun r => r.Latency)).sum := by
  induction rs with
  | nil => simp
  | cons r t ih =>
    have hr : 0 ≤ r.Latency := hpos r (List.mem_cons_self _ _)
    have ht : ∀ x ∈ t, 0 ≤ x.Latency := fun x hx => hpos x (List.mem_cons_of_mem _ hx)
    have ht0 : 0 ≤ (t.map (fun r => r.Latency)).sum :=
      List.sum_nonneg (by
        intro x hx
        obtain ⟨y, hy, rfl⟩ := List.mem_map.mp hx
        exact ht y hy)
    simp only [List.map_cons, List.sum_cons] at hsum ⊢
    obtain ⟨_, h2⟩ := ih ht (by omega)
    refine ⟨by omega, ?_⟩
    have h3 : (toUInt64 r.Latency : Int) = r.Latency := by
      unfold toUInt64
      have : r.Latency % (2 : Int) ^ 64 = r.Latency := Int.emod_eq_of_lt hr (by omega)
      rw [this]
      exact Int.toNat_of_nonneg hr
    rw [Nat.cast_add, h3, h2]

set_option maxRecDepth 100000 in
theorem sample4_figures :
    ((feed (fun _ => 0) (NewStats "" 0) sample4).Refresh insertionSorter).panic = none ∧
      ((feed (fun _ => 0) (NewStats "" 0) sample4).Refresh insertionSorter).stats.Latency avg =
        some (F64.ofDecimal 5 2) ∧
      ((feed (fun _ => 0) (NewStats "" 0) sample4).Refresh insertionSorter).stats.Latency min =
        some (F64.ofDecimal 1 1) ∧
      ((feed (fun _ => 0) (NewStats "" 0) sample4).Refresh insertionSorter).stats.Latency max =
        some (F64.ofDecimal 4 1) ∧
      ((feed (fun _ => 0) (NewStats "" 0) sample4).Refresh insertionSorter).stats.Latency p50 =
        some (F64.ofDecimal 2 1) ∧
      pctIndex (feed (fun _ => 0) (NewStats "" 0) sample4) 5 10 = 1 := by
  decide

set_option maxRecDepth 100000 in
theorem sample1_figures :
    ((feed (fun _ => 0) (NewStats "" 0) sample1).Refresh insertionSorter).panic = some (-1) ∧
      ((feed (fun _ => 0) (NewStats "" 0) sample1).Refresh insertionSorter).stats.latency min =
        F64.ofDecimal 1 1 ∧
      ((feed (fun _ => 0) (NewStats "" 0) sample1).Refresh insertionSorter).stats.latency p25 =
        F64.zero ∧
      F64.le (F64.ofDecimal 1 1) F64.zero = false := by
  decide

/-! ## Properties of the workers -/

/-- While its failure count stays at 10 or below, the upload worker handles
every job: it sends one Result for each job whose request succeeds, in
order, none for a job whose request fails, and counts the failures. -/
theorem uploadLoop_below_threshold (jobs : List PutJob) (w : Worker)
    (h : w.errcount + ((jobs.filter (fun j => j.err.isSome)).length : Int) ≤ 10) :
    uploadLoop w jobs =
      { errcount := w.errcount + ((jobs.filter (fun j => j.err.isSome)).length : Int)
        results := w.results ++
          (jobs.filter (fun j => j.err.isNone)).map
            (fun j => ⟨j.elapsed, j.messagecontent.utf8ByteSize⟩)
        received := w.received + jobs.length
        panic := w.panic } := by
  induction jobs generalizing w with
  | nil => simp [uploadLoop]
  | cons j t ih =>
    cases hj : j.err with
    | none =>
      simp only [List.filter_cons, hj, Option.isSome_none, Option.isNone_none] at h ⊢
      simp only [uploadLoop, hj]
      rw [ih _ (by simpa using h)]
      simp
      omega
    | some e =>
      simp only [List.filter_cons, hj, Option.isSome_some, Option.isNone_some] at h ⊢
      simp only [List.length_cons, Nat.cast_add, Nat.cast_one, if_true] at h
      have hlt : ¬ (w.errcount + 1 > 10) := by omega
      simp only [uploadLoop, hj, if_neg hlt]
      rw [ih _ (by simp only []; omega)]
      simp only [List.length_cons, Nat.cast_add, Nat.cast_one, if_true, Worker.mk.injEq]
      refine ⟨by omega, by simp, by omega, trivial⟩

/-- The upload worker panics while handling the job that brings its failure
count to 11: it has handled the jobs before it as usual, receives no job
after it, and the message carries the text of the error of that job. -/
theorem uploadLoop_at_threshold (pre post : List PutJob) (j : PutJob) (e : String)
    (w : Worker) (hj : j.err = some e)
    (h : w.errcount + ((pre.filter (fun j => j.err.isSome)).length : Int) = 10) :
    uploadLoop w (pre ++ j :: post) =
      { errcount := 11
        results := w.results ++
          (pre.filter (fun j => j.err.isNone)).map
            (fun j => ⟨j.elapsed, j.messagecontent.utf8ByteSize⟩)
        received := w.received + pre.length + 1
        panic := some ("s3: put: too many failures. Last: " ++ e) } := by
  induction pre generalizing w with
  | nil =>
    simp only [List.filter_nil, List.length_nil, Nat.cast_zero, add_zero] at h
    have hgt : w.errcount + 1 > 10 := by omega
    simp only [List.nil_append, uploadLoop, hj, if_pos hgt, fmtS]
    simp [h]
  | cons x t ih =>
    cases hx : x.err with
    | none =>
      simp only [List.filter_cons, hx, Option.isSome_none, Option.isNone_none] at h ⊢
      simp only [List.cons_append, uploadLoop, hx, List.append_eq]
      rw [ih _ (by simpa using h)]
      simp
      omega
    | some e2 =>
      simp only [List.filter_cons, hx, Option.isSome_some, Option.isNone_some] at h ⊢
      simp only [List.length_cons, Nat.cast_add, Nat.cast_one, if_true] at h
      have hlt : ¬ (w.errcount + 1 > 10) := by omega
      simp only [List.cons_append, uploadLoop, hx, if_neg hlt, List.append_eq]
      rw [ih _ (by simp only []; omega)]
      simp
      omega

/-- What `UploadWorker` does on every sequence of jobs: with at most 10 failed
requests it handles all jobs without a panic and sends the Results of the
successful ones; otherwise it panics while handling the 11th failed job. -/
theorem UploadWorker_spec :
    (∀ jobs : List PutJob, (jobs.filter (fun j => j.err.isSome)).length ≤ 10 →
      UploadWorker jobs =
        ⟨((jobs.filter (fun j => j.err.isSome)).length : Int),
          (jobs.filter (fun j => j.err.isNone)).map
            (fun j => ⟨j.elapsed, j.messagecontent.utf8ByteSize⟩),
          jobs.length, none⟩) ∧
    (∀ (pre post : List PutJob) (j : PutJob) (e : String), j.err = some e →
      (pre.filter (fun j => j.err.isSome)).length = 10 →
      UploadWorker (pre ++ j :: post) =
        ⟨11, (pre.filter (fun j => j.err.isNone)).map
            (fun j => ⟨j.elapsed, j.messagecontent.utf8ByteSize⟩),
          pre.length + 1, some ("s3: put: too many failures. Last: " ++ e)⟩) := by
  constructor
  · intro jobs h
    unfold UploadWorker
    rw [uploadLoop_below_threshold jobs _ (by simp only [zero_add]; exact_mod_cast h)]
    simp
  · intro pre post j e hj h
    unfold UploadWorker
    rw [uploadLoop_at_threshold pre post j e _ hj (by simp only [zero_add]; exact_mod_cast h)]
    simp

/-- While its failure count stays at 10 or below, the delete worker handles
every job: it sends one Result for each job whose request succeeds, in
order, none for a job whose request fails, and counts the failures. -/
theorem deleteLoop_below_threshold (jobs : List DeleteJob) (w : Worker)
    (h : w.errcount + ((jobs.filter (fun j => j.err.isSome)).length : Int) ≤ 10) :
    deleteLoop w jobs =
      { errcount := w.errcount + ((jobs.filter (fun j => j.err.isSome)).length : Int)
        results := w.results ++
          (jobs.filter (fun j => j.err.isNone)).map
            (fun j => ⟨j.elapsed, 0⟩)
        received := w.received + jobs.length
        panic := w.panic } := by
  induction jobs generalizing w with
  | nil => simp [deleteLoop]
  | cons j t ih =>
    cases hj : j.err with
    | none =>
      simp only [List.filter_cons, hj, Option.isSome_none, Option.isNone_none] at h ⊢
      simp only [deleteLoop, hj]
      rw [ih _ (by simpa using h)]
      simp
      omega
    | some e =>
      simp only [List.filter_cons, hj, Option.isSome_some, Option.isNone_some] at h ⊢
      simp only [List.length_cons, Nat.cast_add, Nat.cast_one, if_true] at h
      have hlt : ¬ (w.errcount + 1 > 10) := by omega
      simp only [deleteLoop, hj, if_neg hlt]
      rw [ih _ (by simp only []; omega)]
      simp only [List.length_cons, Nat.cast_add, Nat.cast_one, if_true, Worker.mk.injEq]
      refine ⟨by omega, by simp, by omega, trivial⟩

/-- The delete worker panics while handling the job that brings its failure
count to 11: it has handled the jobs before it as usual, receives no job
after it, and the message carries the text of the error of that job. -/
theorem deleteLoop_at_threshold (pre post : List DeleteJob) (j : DeleteJob) (e : String)
    (w : Worker) (hj : j.err = some e)
    (h : w.errcount + ((pre.filter (fun j => j.err.isSome)).length : Int) = 10) :
    deleteLoop w (pre ++ j :: post) =
      { errcount := 11
        results := w.results ++
          (pre.filter (fun j => j.err.isNone)).map
            (fun j => ⟨j.elapsed, 0⟩)
        received := w.received + pre.length + 1
        panic := some ("s3: put: too many failures. Last: " ++ e) } := by
  induction pre generalizing w with
  | nil =>
    simp only [List.filter_nil, List.length_nil, Nat.cast_zero, add_zero] at h
    have hgt : w.errcount + 1 > 10 := by omega
    simp only [List.nil_append, deleteLoop, hj, if_pos hgt, fmtS]
    simp [h]
  | cons x t ih =>
    cases hx : x.err with
    | none =>
      simp only [List.filter_cons, hx, Option.isSome_none, Option.isNone_none] at h ⊢
      simp only [List.cons_append, deleteLoop, hx, List.append_eq]
      rw [ih _ (by simpa using h)]
      simp
      omega
    | some e2 =>
      simp only [List.filter_cons, hx, Option.isSome_some, Option.isNone_some] at h ⊢
      simp only [List.length_cons, Nat.cast_add, Nat.cast_one, if_true] at h
      have hlt : ¬ (w.errcount + 1 > 10) := by omega
      simp only [List.cons_append, deleteLoop, hx, if_neg hlt, List.append_eq]
      rw [ih _ (by simp only []; omega)]
      simp
      omega

/-- What `DeleteWorker` does on every sequence of jobs: with at most 10 failed
requests it handles all jobs without a panic and sends the Results of the
successful ones; otherwise it panics while handling the 11th failed job. -/
theorem DeleteWorker_spec :
    (∀ jobs : List DeleteJob, (jobs.filter (fun j => j.err.isSome)).length ≤ 10 →
      DeleteWorker jobs =
        ⟨((jobs.filter (fun j => j.err.isSome)).length : Int),
          (jobs.filter (fun j => j.err.isNone)).map
            (fun j => ⟨j.elapsed, 0⟩),
          jobs.length, none⟩) ∧
    (∀ (pre post : List DeleteJob) (j : DeleteJob) (e : String), j.err = some e →
      (pre.filter (fun j => j.err.isSome)).length = 10 →
      DeleteWorker (pre ++ j :: post) =
        ⟨11, (pre.filter (fun j => j.err.isNone)).map
            (fun j => ⟨j.elapsed, 0⟩),
          pre.length + 1, some ("s3: put: too many failures. Last: " ++ e)⟩) := by
  constructor
  · intro jobs h
    unfold DeleteWorker
    rw [deleteLoop_below_threshold jobs _ (by simp only [zero_add]; exact_mod_cast h)]
    simp
  · intro pre post j e hj h
    unfold DeleteWorker
    rw [deleteLoop_at_threshold pre post j e _ hj (by simp only [zero_add]; exact_mod_cast h)]
    simp

/-! ## The percentile indices and the figures for four samples or more -/

theorem rq_pos (x : ℚ) (hx : 1 ≤ x) : 1 ≤ rq x := by
  have h1 := rq_mono 1 x (by norm_num) hx
  have h2 := rq_natCast 1 Nat.one_pos (by norm_num)
  simp only [Nat.cast_one] at h2
  rw [h2] at h1
  exact h1

theorem pctIndex_val (s : Stats) (a b mc : ℕ) (ec : ℤ)
    (hc : F64.ofDecimal a b = .finite false mc ec) (hmc : 0 < mc)
    (hv : (mc : ℚ) * (2 : ℚ) ^ ec ≤ 1) (hn : 0 < s.Count) (h53 : s.Count < 2 ^ 53) :
    pctIndex s a b = (⌊rq ((s.Count : ℚ) * ((mc : ℚ) * (2 : ℚ) ^ ec))⌋₊ : ℤ) - 1 := by
  obtain ⟨m, e, hN, hNv⟩ := ofUInt64_val s.Count hn h53
  have hnq : (0 : ℚ) < (s.Count : ℚ) := by exact_mod_cast hn
  have hvc : (0 : ℚ) < (mc : ℚ) * (2 : ℚ) ^ ec :=
    mul_pos (by exact_mod_cast hmc) (two_zpow_pos _)
  have hm : 0 < m := by
    rcases Nat.eq_zero_or_pos m with h0 | h0
    · have h1 : (s.Count : ℚ) = 0 := by rw [← hNv, h0]; simp
      have h2 : s.Count = 0 := by exact_mod_cast h1
      omega
    · exact h0
  have h53q : (s.Count : ℚ) < ((2 ^ 53 : ℕ) : ℚ) := by exact_mod_cast h53
  have hprod : (s.Count : ℚ) * ((mc : ℚ) * (2 : ℚ) ^ ec) ≤ s.Count := by
    calc (s.Count : ℚ) * ((mc : ℚ) * (2 : ℚ) ^ ec) ≤ (s.Count : ℚ) * 1 :=
          mul_le_mul_of_nonneg_left hv (le_of_lt hnq)
      _ = s.Count := mul_one _
  have hU : (m : ℚ) * (2 : ℚ) ^ e * ((mc : ℚ) * (2 : ℚ) ^ ec) < (2 : ℚ) ^ (1000 : ℤ) := by
    rw [hNv]
    have : ((2 ^ 53 : ℕ) : ℚ) ≤ (2 : ℚ) ^ (1000 : ℤ) := by norm_num
    linarith
  obtain ⟨M, E, hmul, hmv⟩ := mul_val m mc e ec hm hmc hU
  rw [hNv] at hmv
  have hle : rq ((s.Count : ℚ) * ((mc : ℚ) * (2 : ℚ) ^ ec)) ≤ s.Count := by
    have := rq_mono _ _ (mul_pos hnq hvc) hprod
    rw [rq_natCast s.Count hn h53] at this
    exact this
  unfold pctIndex
  rw [hN, hc, hmul, toInt_finite M E (by
    rw [hmv]
    have : ((2 ^ 53 : ℕ) : ℚ) ≤ (2 : ℚ) ^ (63 : ℤ) := by norm_num
    linarith), hmv]

theorem floor_rq_bounds (n : ℕ) (v w : ℚ) (hn : 4 ≤ n) (h53 : n < 2 ^ 53)
    (hv : 1 / 4 ≤ v) (hvw : v ≤ w) (hw : w ≤ 1) :
    1 ≤ ⌊rq ((n : ℚ) * v)⌋₊ ∧ ⌊rq ((n : ℚ) * v)⌋₊ ≤ ⌊rq ((n : ℚ) * w)⌋₊ ∧
      ⌊rq ((n : ℚ) * w)⌋₊ ≤ n := by
  have hnq : (4 : ℚ) ≤ (n : ℚ) := by exact_mod_cast hn
  have h1 : 1 ≤ (n : ℚ) * v := by nlinarith
  have h2 : (n : ℚ) * v ≤ (n : ℚ) * w := mul_le_mul_of_nonneg_left hvw (by linarith)
  have h3 : (n : ℚ) * w ≤ n := by nlinarith
  refine ⟨?_, Nat.floor_mono (rq_mono _ _ (by linarith) h2), ?_⟩
  · apply Nat.le_floor
    simpa using rq_pos _ h1
  · have := rq_mono _ _ (by linarith) h3
    rw [rq_natCast n (by omega) h53] at this
    have h4 := Nat.floor_mono this
    rwa [Nat.floor_natCast] at h4

set_option maxRecDepth 100000 in
theorem pct_constants :
    F64.ofDecimal 25 100 = .finite false 4503599627370496 (-54) ∧
      F64.ofDecimal 5 10 = .finite false 4503599627370496 (-53) ∧
      F64.ofDecimal 75 100 = .finite false 6755399441055744 (-53) ∧
      F64.ofDecimal 90 100 = .finite false 8106479329266893 (-53) ∧
      F64.ofDecimal 99 100 = .finite false 8917127262193582 (-53) ∧
      F64.ofDecimal 1000000 1 = .finite false 8589934592000000 (-33) := by
  decide

theorem pct_indices (s : Stats) (hn : 4 ≤ s.Count) (h53 : s.Count < 2 ^ 53) :
    ∃ i25 i50 i75 i90 i99 : ℕ,
      pctIndex s 25 100 = i25 ∧ pctIndex s 5 10 = i50 ∧ pctIndex s 75 100 = i75 ∧
      pctIndex s 90 100 = i90 ∧ pctIndex s 99 100 = i99 ∧
      i25 ≤ i50 ∧ i50 ≤ i75 ∧ i75 ≤ i90 ∧ i90 ≤ i99 ∧ i99 < s.Count := by
  obtain ⟨c25, c50, c75, c90, c99, _⟩ := pct_constants
  have v25 : ((4503599627370496 : ℕ) : ℚ) * (2 : ℚ) ^ (-54 : ℤ) = 1 / 4 := by norm_num
  have v50 : ((4503599627370496 : ℕ) : ℚ) * (2 : ℚ) ^ (-53 : ℤ) = 1 / 2 := by norm_num
  have v75 : ((6755399441055744 : ℕ) : ℚ) * (2 : ℚ) ^ (-53 : ℤ) = 3 / 4 := by norm_num
  have v90 : ((8106479329266893 : ℕ) : ℚ) * (2 : ℚ) ^ (-53 : ℤ) =
      8106479329266893 / 9007199254740992 := by norm_num
  have v99 : ((8917127262193582 : ℕ) : ℚ) * (2 : ℚ) ^ (-53 : ℤ) =
      8917127262193582 / 9007199254740992 := by norm_num
  have p25 := pctIndex_val s 25 100 _ _ c25 (by norm_num) (by rw [v25]; norm_num)
    (by omega) h53
  have p50 := pctIndex_val s 5 10 _ _ c50 (by norm_num) (by rw [v50]; norm_num)
    (by omega) h53
  have p75 := pctIndex_val s 75 100 _ _ c75 (by norm_num) (by rw [v75]; norm_num)
    (by omega) h53
  have p90 := pctIndex_val s 90 100 _ _ c90 (by norm_num) (by rw [v90]; norm_num)
    (by omega) h53
  have p99 := pctIndex_val s 99 100 _ _ c99 (by norm_num) (by rw [v99]; norm_num)
    (by omega) h53
  rw [v25] at p25
  rw [v50] at p50
  rw [v75] at p75
  rw [v90] at p90
  rw [v99] at p99
  obtain ⟨a1, a2, _⟩ := floor_rq_bounds s.Count (1 / 4) (1 / 2) hn h53 (by norm_num)
    (by norm_num) (by norm_num)
  obtain ⟨_, a3, _⟩ := floor_rq_bounds s.Count (1 / 2) (3 / 4) hn h53 (by norm_num)
    (by norm_num) (by norm_num)
  obtain ⟨_, a4, _⟩ := floor_rq_bounds s.Count (3 / 4)
    (8106479329266893 / 9007199254740992) hn h53 (by norm_num) (by norm_num) (by norm_num)
  obtain ⟨_, a5, a6⟩ := floor_rq_bounds s.Count (8106479329266893 / 9007199254740992)
    (8917127262193582 / 9007199254740992) hn h53 (by norm_num) (by norm_num) (by norm_num)
  refine ⟨⌊rq ((s.Count : ℚ) * (1 / 4))⌋₊ - 1, ⌊rq ((s.Count : ℚ) * (1 / 2))⌋₊ - 1,
    ⌊rq ((s.Count : ℚ) * (3 / 4))⌋₊ - 1,
    ⌊rq ((s.Count : ℚ) * (8106479329266893 / 9007199254740992))⌋₊ - 1,
    ⌊rq ((s.Count : ℚ) * (8917127262193582 / 9007199254740992))⌋₊ - 1,
    ?_, ?_, ?_, ?_, ?_, ?_, ?_, ?_, ?_, ?_⟩
  · rw [p25]; omega
  · rw [p50]; omega
  · rw [p75]; omega
  · rw [p90]; omega
  · rw [p99]; omega
  · omega
  · omega
  · omega
  · omega
  · omega

theorem rq_div_pos (a : ℕ) (ha : 0 < a) : 0 < rq (a : ℚ) / 1000000 := by
  have h1 : (1 : ℚ) ≤ (a : ℚ) := by exact_mod_cast ha
  have := rq_pos _ h1
  positivity

theorem msq_mono (l1 l2 : ℤ) (h : l1 ≤ l2) : msq l1 ≤ msq l2 := by
  have hP : ∀ a b : ℕ, 0 < a → a ≤ b →
      rq (rq (a : ℚ) / 1000000) ≤ rq (rq (b : ℚ) / 1000000) := by
    intro a b ha hab
    apply rq_mono _ _ (rq_div_pos a ha)
    apply div_le_div_of_nonneg_right _ (by norm_num)
    exact rq_mono _ _ (by exact_mod_cast ha) (by exact_mod_cast hab)
  unfold msq
  rcases lt_trichotomy l1 0 with h1 | h1 | h1
  · rw [if_neg (by omega), if_pos h1]
    rcases lt_trichotomy l2 0 with h2 | h2 | h2
    · rw [if_neg (by omega), if_pos h2]
      have := hP l2.natAbs l1.natAbs (by omega) (by omega)
      linarith
    · rw [if_pos h2]
      have := rq_nonneg (rq (l1.natAbs : ℚ) / 1000000)
      linarith
    · rw [if_neg (by omega), if_neg (by omega)]
      have := rq_nonneg (rq (l1.natAbs : ℚ) / 1000000)
      have := rq_nonneg (rq (l2.natAbs : ℚ) / 1000000)
      linarith
  · rw [if_pos h1]
    rcases eq_or_lt_of_le (h1 ▸ h : (0 : ℤ) ≤ l2) with h2 | h2
    · rw [if_pos h2.symm]
    · rw [if_neg (by omega), if_neg (by omega)]
      have := rq_nonneg (rq (l2.natAbs : ℚ) / 1000000)
      linarith
  · rw [if_neg (by omega), if_neg (by omega), if_neg (by omega), if_neg (by omega)]
    have := hP l1.natAbs l2.natAbs (by omega) (by omega)
    linarith

theorem ms_toRat (r : Result) (h : r.Latency.natAbs ≤ 2 ^ 63) :
    ∃ s M E, ms r = .finite s M E ∧ F64.toRat (.finite s M E) = msq r.Latency := by
  have hc := pct_constants.2.2.2.2.2
  by_cases h0 : r.Latency = 0
  · refine ⟨false, 0, 0, ?_, ?_⟩
    · simp [ms, F64.ofInt64, h0, roundRat, hc, F64.div]
    · simp [F64.toRat, msq, h0]
  · have ha : 0 < r.Latency.natAbs := Int.natAbs_pos.mpr h0
    have haq : (r.Latency.natAbs : ℚ) ≤ ((2 ^ 63 : ℕ) : ℚ) := by exact_mod_cast h
    have hU : ((r.Latency.natAbs : ℕ) : ℚ) / (1 : ℕ) < (2 : ℚ) ^ (1000 : ℤ) := by
      simp only [Nat.cast_one, div_one]
      have : ((2 ^ 63 : ℕ) : ℚ) < (2 : ℚ) ^ (1000 : ℤ) := by norm_num
      linarith
    obtain ⟨m, e, h1, h2⟩ := roundRat_val (decide (r.Latency < 0)) _ 1 ha Nat.one_pos hU
    have h3 : rval r.Latency.natAbs 1 = rq (r.Latency.natAbs : ℚ) := by
      have := rval_eq_rq r.Latency.natAbs 1 ha Nat.one_pos
      simpa using this
    rw [h3] at h2
    have hge : (1 : ℚ) ≤ rq (r.Latency.natAbs : ℚ) := rq_pos _ (by exact_mod_cast ha)
    have hm : 0 < m := by
      rcases Nat.eq_zero_or_pos m with hz | hz
      · rw [hz] at h2; simp at h2; linarith
      · exact hz
    have hle : rq (r.Latency.natAbs : ℚ) ≤ 2 * (r.Latency.natAbs : ℚ) + 1 := by
      have := rval_le r.Latency.natAbs 1 ha Nat.one_pos
      rw [h3] at this
      simpa using this
    have hv : ((8589934592000000 : ℕ) : ℚ) * (2 : ℚ) ^ (-33 : ℤ) = 1000000 := by norm_num
    have hU2 : (m : ℚ) * (2 : ℚ) ^ e / (((8589934592000000 : ℕ) : ℚ) * (2 : ℚ) ^ (-33 : ℤ)) <
        (2 : ℚ) ^ (1000 : ℤ) := by
      rw [h2, hv]
      have h4 : rq (r.Latency.natAbs : ℚ) / 1000000 ≤ rq (r.Latency.natAbs : ℚ) :=
        div_le_self (by linarith) (by norm_num)
      have h5 : 2 * ((2 ^ 63 : ℕ) : ℚ) + 1 < (2 : ℚ) ^ (1000 : ℤ) := by norm_num
      linarith
    obtain ⟨M, E, h5, h6⟩ := div_val (decide (r.Latency < 0)) m 8589934592000000 e (-33) hm
      (by norm_num) hU2
    rw [h2, hv] at h6
    refine ⟨decide (r.Latency < 0), M, E, ?_, ?_⟩
    · unfold ms F64.ofInt64
      rw [h1, hc, h5]
    · unfold msq
      rw [if_neg h0, ← h6]
      by_cases hneg : r.Latency < 0 <;> simp [F64.toRat, hneg, mul_assoc]

theorem ms_le (r1 r2 : Result) (h1 : r1.Latency.natAbs ≤ 2 ^ 63)
    (h2 : r2.Latency.natAbs ≤ 2 ^ 63) (h : r1.Latency ≤ r2.Latency) :
    F64.le (ms r1) (ms r2) = true := by
  obtain ⟨s, M, E, e1, v1⟩ := ms_toRat r1 h1
  obtain ⟨t, N, F, e2, v2⟩ := ms_toRat r2 h2
  rw [e1, e2, le_finite_iff, v1, v2]
  exact msq_mono _ _ h

theorem index_of_lt (l : List Result) (i : ℕ) (h : i < l.length) :
    index l (i : ℤ) = some l[i] := by
  unfold index
  rw [if_neg (by omega)]
  simp [h]

theorem sorted_getElem_le (l : List Result)
    (hs : l.Pairwise (fun x y => ¬ ByLatency.Less y x)) (i j : ℕ) (hij : i ≤ j)
    (hi : i < l.length) (hj : j < l.length) : (l[i]).Latency ≤ (l[j]).Latency := by
  rcases Nat.eq_or_lt_of_le hij with heq | hlt
  · subst heq; exact le_refl _
  · exact not_lt.mp (List.pairwise_iff_getElem.mp hs i j hi hj hlt)

theorem Refresh_complete (S : Sorter) (s : Stats) (h0 : ¬ s.Count ≤ 0)
    (r0 rm r25 r50 r75 r90 r99 : Result)
    (e0 : index (S.sort s.DataPoints) 0 = some r0)
    (em : index (S.sort s.DataPoints) (((S.sort s.DataPoints).length : ℤ) - 1) = some rm)
    (e25 : index (S.sort s.DataPoints) (pctIndex s 25 100) = some r25)
    (e50 : index (S.sort s.DataPoints) (pctIndex s 5 10) = some r50)
    (e75 : index (S.sort s.DataPoints) (pctIndex s 75 100) = some r75)
    (e90 : index (S.sort s.DataPoints) (pctIndex s 90 100) = some r90)
    (e99 : index (S.sort s.DataPoints) (pctIndex s 99 100) = some r99) :
    (s.Refresh S).panic = none ∧
      (s.Refresh S).stats.Latency min = some (ms r0) ∧
      (s.Refresh S).stats.Latency p25 = some (ms r25) ∧
      (s.Refresh S).stats.Latency p50 = some (ms r50) ∧
      (s.Refresh S).stats.Latency p75 = some (ms r75) ∧
      (s.Refresh S).stats.Latency p90 = some (ms r90) ∧
      (s.Refresh S).stats.Latency p99 = some (ms r99) ∧
      (s.Refresh S).stats.Latency max = some (ms rm) := by
  rw [Refresh_of_pos S s h0]
  rw [storeAt_some min (fun _ => 0) _ r0 rfl e0]
  rw [storeAt_some max _ _ rm rfl em]
  rw [storeAt_some p25 _ _ r25 rfl e25]
  rw [storeAt_some p50 _ _ r50 rfl e50]
  rw [storeAt_some p75 _ _ r75 rfl e75]
  rw [storeAt_some p90 _ _ r90 rfl e90]
  rw [storeAt_some p99 _ _ r99 rfl e99]
  refine ⟨rfl, ?_, ?_, ?_, ?_, ?_, ?_, ?_⟩ <;>
    simp [setLatency, min, max, avg, p25, p50, p75, p90, p99]

/-- With at least four samples (and fewer than `2^53`) every percentile index
is within the sample: `Refresh` completes without a panic, and when the
latencies are `int64` values the figures are ordered
`min ≤ p25 ≤ p50 ≤ p75 ≤ p90 ≤ p99 ≤ max`. -/
theorem Refresh_four_or_more (S : Sorter) (clock : Nat → Int) (title : String) (now : Int)
    (rs : List Result) (h4 : 4 ≤ rs.length) (h53 : rs.length < 2 ^ 53) :
    ((feed clock (NewStats title now) rs).Refresh S).panic = none ∧
      ((∀ r ∈ rs, r.Latency.natAbs ≤ 2 ^ 63) →
        F64.le (((feed clock (NewStats title now) rs).Refresh S).stats.latency min)
            (((feed clock (NewStats title now) rs).Refresh S).stats.latency p25) = true ∧
          F64.le (((feed clock (NewStats title now) rs).Refresh S).stats.latency p25)
            (((feed clock (NewStats title now) rs).Refresh S).stats.latency p50) = true ∧
          F64.le (((feed clock (NewStats title now) rs).Refresh S).stats.latency p50)
            (((feed clock (NewStats title now) rs).Refresh S).stats.latency p75) = true ∧
          F64.le (((feed clock (NewStats title now) rs).Refresh S).stats.latency p75)
            (((feed clock (NewStats title now) rs).Refresh S).stats.latency p90) = true ∧
          F64.le (((feed clock (NewStats title now) rs).Refresh S).stats.latency p90)
            (((feed clock (NewStats title now) rs).Refresh S).stats.latency p99) = true ∧
          F64.le (((feed clock (NewStats title now) rs).Refresh S).stats.latency p99)
            (((feed clock (NewStats title now) rs).Refresh S).stats.latency max) = true) := by
  obtain ⟨hc, _, _, _, hd⟩ := feed_new clock title now rs
  have hcount : (feed clock (NewStats title now) rs).Count = rs.length := by
    rw [hc]; exact Nat.mod_eq_of_lt (by omega)
  have hlen : (S.sort (feed clock (NewStats title now) rs).DataPoints).length = rs.length := by
    rw [hd]; exact (S.perm rs).length_eq
  obtain ⟨i25, i50, i75, i90, i99, p25, p50, p75, p90, p99, o1, o2, o3, o4, o5⟩ :=
    pct_indices (feed clock (NewStats title now) rs) (by omega) (by omega)
  rw [hcount] at o5
  have hsorted := S.sorted (feed clock (NewStats title now) rs).DataPoints
  have b0 : 0 < (S.sort (feed clock (NewStats title now) rs).DataPoints).length := by omega
  have b25 : i25 < (S.sort (feed clock (NewStats title now) rs).DataPoints).length := by omega
  have b50 : i50 < (S.sort (feed clock (NewStats title now) rs).DataPoints).length := by omega
  have b75 : i75 < (S.sort (feed clock (NewStats title now) rs).DataPoints).length := by omega
  have b90 : i90 < (S.sort (feed clock (NewStats title now) rs).DataPoints).length := by omega
  have b99 : i99 < (S.sort (feed clock (NewStats title now) rs).DataPoints).length := by omega
  have bm : (S.sort (feed clock (NewStats title now) rs).DataPoints).length - 1 <
      (S.sort (feed clock (NewStats title now) rs).DataPoints).length := by omega
  have hm : (((S.sort (feed clock (NewStats title now) rs).DataPoints).length : ℤ) - 1) =
      (((S.sort (feed clock (NewStats title now) rs).DataPoints).length - 1 : ℕ) : ℤ) := by
    omega
  obtain ⟨c0, c1, c2, c3, c4, c5, c6, c7⟩ :=
    Refresh_complete S (feed clock (NewStats title now) rs) (by omega) _ _ _ _ _ _ _
      (index_of_lt _ 0 b0) (by rw [hm]; exact index_of_lt _ _ bm)
      (by rw [p25]; exact index_of_lt _ i25 b25) (by rw [p50]; exact index_of_lt _ i50 b50)
      (by rw [p75]; exact index_of_lt _ i75 b75) (by rw [p90]; exact index_of_lt _ i90 b90)
      (by rw [p99]; exact index_of_lt _ i99 b99)
  refine ⟨c0, fun hlat => ?_⟩
  have hb : ∀ (i : ℕ) (hi : i < (S.sort (feed clock (NewStats title now) rs).DataPoints).length),
      ((S.sort (feed clock (NewStats title now) rs).DataPoints)[i]).Latency.natAbs ≤ 2 ^ 63 := by
    intro i hi
    apply hlat
    have hmem := List.getElem_mem hi
    have hmem2 := (S.perm (feed clock (NewStats title now) rs).DataPoints).mem_iff.mp hmem
    have key : ∀ (l : List Result) (x : Result), l = rs → x ∈ l → x ∈ rs :=
      fun l x h hx => h ▸ hx
    exact key _ _ hd hmem2
  unfold Stats.latency
  rw [c1, c2, c3, c4, c5, c6, c7]
  simp only [Option.getD_some]
  exact ⟨ms_le _ _ (hb _ _) (hb _ _) (sorted_getElem_le _ hsorted _ _ (by omega) b0 b25),
    ms_le _ _ (hb _ _) (hb _ _) (sorted_getElem_le _ hsorted _ _ o1 b25 b50),
    ms_le _ _ (hb _ _) (hb _ _) (sorted_getElem_le _ hsorted _ _ o2 b50 b75),
    ms_le _ _ (hb _ _) (hb _ _) (sorted_getElem_le _ hsorted _ _ o3 b75 b90),
    ms_le _ _ (hb _ _) (hb _ _) (sorted_getElem_le _ hsorted _ _ o4 b90 b99),
    ms_le _ _ (hb _ _) (hb _ _) (sorted_getElem_le _ hsorted _ _ (by omega) b99 bm)⟩

/-! ## The percentile index and the formula `floor(n * p) - 1` -/

theorem rne_err (t : ℚ) (ht : 0 ≤ t) : |(rne t : ℚ) - t| ≤ 1 / 2 := by
  have h1 : (⌊t⌋₊ : ℚ) ≤ t := Nat.floor_le ht
  have h2 : t < (⌊t⌋₊ : ℚ) + 1 := Nat.lt_floor_add_one t
  unfold rne
  rw [abs_le]
  split_ifs <;> constructor <;> push_cast <;> linarith

theorem rq_spec (x : ℚ) (hx : 0 < x) :
    ∃ (q : ℕ) (k : ℤ), rq x = (q : ℚ) * (2 : ℚ) ^ k ∧ -1074 ≤ k ∧
      x < (2 : ℚ) ^ (k + 53) ∧ (-1074 < k → (2 : ℚ) ^ (k + 52) ≤ x) ∧
      q = rne (x / (2 : ℚ) ^ k) := by
  have hnum : 0 < x.num := Rat.num_pos.mpr hx
  have ha : 0 < x.num.natAbs := Int.natAbs_pos.mpr (ne_of_gt hnum)
  have hfrac : ((x.num.natAbs : ℕ) : ℚ) / (x.den : ℚ) = x := by
    rw [Nat.cast_natAbs, abs_of_pos hnum]
    exact Rat.num_div_den x
  obtain ⟨k1, kx, kl⟩ := roundExp_spec x.num.natAbs x.den ha (Rat.den_pos x)
  rw [hfrac] at kx kl
  refine ⟨roundSig x.num.natAbs x.den (roundExp x.num.natAbs x.den),
    roundExp x.num.natAbs x.den, rfl, k1, kx, kl, ?_⟩
  rw [roundSig_eq _ _ _ (Rat.den_pos x), hfrac]

theorem rq_rel_err (x : ℚ) (hx : 1 / 4 ≤ x) : |rq x - x| ≤ x * (2 : ℚ) ^ (-53 : ℤ) := by
  have hx0 : 0 < x := by linarith
  obtain ⟨q, k, hq, k1, kx, kl, hr⟩ := rq_spec x hx0
  have hk : -1074 < k := by
    by_contra hc
    have hk' : k = -1074 := by omega
    rw [hk'] at kx
    have h4 : (2 : ℚ) ^ (-2 : ℤ) = 1 / 4 := by norm_num
    have h5 : x < 1 / 4 := by
      rw [← h4]
      exact lt_of_lt_of_le kx (two_zpow_mono (by norm_num))
    linarith
  have hlo := kl hk
  have herr := rne_err (x / (2 : ℚ) ^ k) (le_of_lt (div_pos hx0 (two_zpow_pos k)))
  have hpos := two_zpow_pos k
  have e1 : rq x - x = ((rne (x / (2 : ℚ) ^ k) : ℚ) - x / (2 : ℚ) ^ k) * (2 : ℚ) ^ k := by
    rw [hq, hr]
    field_simp
  rw [e1, abs_mul, abs_of_pos hpos]
  have e2 : (2 : ℚ) ^ (k + 52) = (2 : ℚ) ^ k * (2 : ℚ) ^ (52 : ℤ) :=
    zpow_add₀ (by norm_num) k 52
  have e3 : (2 : ℚ) ^ (52 : ℤ) * (2 : ℚ) ^ (-53 : ℤ) = 1 / 2 := by norm_num
  calc |(rne (x / (2 : ℚ) ^ k) : ℚ) - x / (2 : ℚ) ^ k| * (2 : ℚ) ^ k
      ≤ 1 / 2 * (2 : ℚ) ^ k := mul_le_mul_of_nonneg_right herr (le_of_lt hpos)
    _ = (2 : ℚ) ^ k * (2 : ℚ) ^ (52 : ℤ) * (2 : ℚ) ^ (-53 : ℤ) := by rw [mul_assoc, e3]; ring
    _ ≤ x * (2 : ℚ) ^ (-53 : ℤ) := by
        apply mul_le_mul_of_nonneg_right _ (le_of_lt (two_zpow_pos _))
        rw [← e2]; exact hlo

theorem rq_abs_err (x : ℚ) (hx : 0 < x) :
    ∃ (q : ℕ) (k : ℤ), rq x = (q : ℚ) * (2 : ℚ) ^ k ∧ x < (2 : ℚ) ^ (k + 53) ∧
      (-1074 < k → (2 : ℚ) ^ (k + 52) ≤ x) ∧ |rq x - x| ≤ (2 : ℚ) ^ k / 2 := by
  obtain ⟨q, k, hq, _, kx, kl, hr⟩ := rq_spec x hx
  refine ⟨q, k, hq, kx, kl, ?_⟩
  have herr := rne_err (x / (2 : ℚ) ^ k) (le_of_lt (div_pos hx (two_zpow_pos k)))
  have hpos := two_zpow_pos k
  have e1 : rq x - x = ((rne (x / (2 : ℚ) ^ k) : ℚ) - x / (2 : ℚ) ^ k) * (2 : ℚ) ^ k := by
    rw [hq, hr]
    field_simp
  rw [e1, abs_mul, abs_of_pos hpos]
  calc |(rne (x / (2 : ℚ) ^ k) : ℚ) - x / (2 : ℚ) ^ k| * (2 : ℚ) ^ k
      ≤ 1 / 2 * (2 : ℚ) ^ k := mul_le_mul_of_nonneg_right herr (le_of_lt hpos)
    _ = (2 : ℚ) ^ k / 2 := by ring

theorem rq_ge_nat (K : ℕ) (x : ℚ) (hx : 0 < x) (hx53 : x < (2 : ℚ) ^ (53 : ℤ))
    (h : (K : ℚ) - x < x * (2 : ℚ) ^ (-54 : ℤ)) : (K : ℚ) ≤ rq x := by
  by_contra hlt
  rw [not_le] at hlt
  obtain ⟨q, k, hq, kx, kl, herr⟩ := rq_abs_err x hx
  have hpos := two_zpow_pos k
  have hk0 : k ≤ 0 := by
    by_contra hc
    have h1 := kl (by omega)
    have := two_zpow_lt (lt_of_le_of_lt h1 hx53)
    omega
  -- `K` lies on the grid of step `2^k`
  have hK : (K : ℚ) = ((K * 2 ^ (-k).toNat : ℕ) : ℚ) * (2 : ℚ) ^ k := by
    rw [Nat.cast_mul, two_pow_toNat (-k) (by omega), mul_assoc,
      ← zpow_add₀ (by norm_num : (2 : ℚ) ≠ 0), neg_add_cancel, zpow_zero, mul_one]
  have hstep : rq x + (2 : ℚ) ^ k ≤ K := by
    rw [hq] at hlt ⊢
    rw [hK] at hlt ⊢
    have h1 : (q : ℚ) < ((K * 2 ^ (-k).toNat : ℕ) : ℚ) := lt_of_mul_lt_mul_right hlt (le_of_lt hpos)
    have h2 : q + 1 ≤ K * 2 ^ (-k).toNat := by exact_mod_cast h1
    have h3 : ((q + 1 : ℕ) : ℚ) ≤ ((K * 2 ^ (-k).toNat : ℕ) : ℚ) := by exact_mod_cast h2
    have h4 := mul_le_mul_of_nonneg_right h3 (le_of_lt hpos)
    push_cast at h4 ⊢
    linarith
  have h54 : x * (2 : ℚ) ^ (-54 : ℤ) < (2 : ℚ) ^ k / 2 := by
    have e : (2 : ℚ) ^ (k + 53) * (2 : ℚ) ^ (-54 : ℤ) = (2 : ℚ) ^ k / 2 := by
      rw [zpow_add₀ (by norm_num : (2 : ℚ) ≠ 0)]
      norm_num
      ring
    rw [← e]
    exact mul_lt_mul_of_pos_right kx (two_zpow_pos _)
  have habs := (abs_le.mp herr).1
  generalize x * (2 : ℚ) ^ (-54 : ℤ) = y at h h54
  generalize (2 : ℚ) ^ k = p at hstep h54 habs
  linarith

theorem floor_rq_eq (n a b : ℕ) (vc : ℚ) (hn : 0 < n) (h40 : n < 2 ^ 40) (hb : 0 < b)
    (hb100 : b ≤ 100) (hv1 : (a : ℚ) / b ≤ vc * (1 + (2 : ℚ) ^ (-55 : ℤ)))
    (hv2 : vc ≤ (a : ℚ) / b + (2 : ℚ) ^ (-55 : ℤ)) (hv3 : 1 / 4 ≤ vc) (hv4 : vc ≤ 1) :
    ⌊rq ((n : ℚ) * vc)⌋₊ = n * a / b := by
  have hnq : (1 : ℚ) ≤ (n : ℚ) := by exact_mod_cast hn
  have hn40 : (n : ℚ) < 2 ^ 40 := by exact_mod_cast h40
  have hbq : (0 : ℚ) < b := by exact_mod_cast hb
  have hb100q : (b : ℚ) ≤ 100 := by exact_mod_cast hb100
  have hx : 1 / 4 ≤ (n : ℚ) * vc := by nlinarith
  have hx0 : 0 < (n : ℚ) * vc := by linarith
  have hxn : (n : ℚ) * vc ≤ n := by nlinarith
  -- the quotient and remainder of `n * a` by `b`
  have hdm := Nat.div_add_mod (n * a) b
  have hmod : n * a % b < b := Nat.mod_lt _ hb
  have hKle : ((n * a / b : ℕ) : ℚ) ≤ (n : ℚ) * ((a : ℚ) / b) := by
    rw [← mul_div_assoc, le_div_iff₀ hbq]
    have : n * a / b * b ≤ n * a := Nat.div_mul_le_self _ _
    exact_mod_cast this
  have hKup : (n : ℚ) * ((a : ℚ) / b) ≤ ((n * a / b : ℕ) : ℚ) + 1 - 1 / b := by
    have h1 : n * a + 1 ≤ b * (n * a / b) + b := by omega
    have h2 : ((n * a + 1 : ℕ) : ℚ) ≤ ((b * (n * a / b) + b : ℕ) : ℚ) := by exact_mod_cast h1
    push_cast at h2
    have e1 : (n : ℚ) * ((a : ℚ) / b) = ((n : ℚ) * a) / b := by ring
    have e2 : ((n * a / b : ℕ) : ℚ) + 1 - 1 / b =
        ((b : ℚ) * ((n * a / b : ℕ) : ℚ) + b - 1) / b := by
      field_simp
      ring
    rw [e1, e2, div_le_div_iff_of_pos_right hbq]
    linarith
  have e53 : (2 : ℚ) ^ (-53 : ℤ) = 1 / 9007199254740992 := by norm_num
  have e54 : (2 : ℚ) ^ (-54 : ℤ) = 1 / 18014398509481984 := by norm_num
  have e55 : (2 : ℚ) ^ (-55 : ℤ) = 1 / 36028797018963968 := by norm_num
  have hinvb : 1 / 100 ≤ 1 / (b : ℚ) := one_div_le_one_div_of_le hbq hb100q
  rw [Nat.floor_eq_iff (rq_nonneg _)]
  constructor
  · apply rq_ge_nat _ _ hx0
    · have : ((2 : ℚ) ^ (53 : ℤ)) = 9007199254740992 := by norm_num
      rw [this]; linarith
    · have h1 : (n : ℚ) * ((a : ℚ) / b) ≤ (n : ℚ) * (vc * (1 + (2 : ℚ) ^ (-55 : ℤ))) :=
        mul_le_mul_of_nonneg_left hv1 (by linarith)
      rw [e54]
      rw [e55] at h1
      nlinarith
  · have herr := (abs_le.mp (rq_rel_err _ hx)).2
    have h1 : (n : ℚ) * vc ≤ (n : ℚ) * ((a : ℚ) / b + (2 : ℚ) ^ (-55 : ℤ)) :=
      mul_le_mul_of_nonneg_left hv2 (by linarith)
    have h2 : (n : ℚ) * vc * (2 : ℚ) ^ (-53 : ℤ) ≤ (n : ℚ) * (2 : ℚ) ^ (-53 : ℤ) :=
      mul_le_mul_of_nonneg_right hxn (le_of_lt (two_zpow_pos _))
    rw [e53] at herr h2
    rw [e55] at h1
    nlinarith

/-- Below `2^40` samples the index `int(float64(Count) * p) - 1` of each of
the five percentiles is `floor(Count * p) - 1`, the rounding of the binary64
product notwithstanding. -/
theorem pctIndex_eq_floor (s : Stats) (hn : 0 < s.Count) (h40 : s.Count < 2 ^ 40) :
    pctIndex s 25 100 = ((s.Count * 25 / 100 : ℕ) : ℤ) - 1 ∧
      pctIndex s 5 10 = ((s.Count * 5 / 10 : ℕ) : ℤ) - 1 ∧
      pctIndex s 75 100 = ((s.Count * 75 / 100 : ℕ) : ℤ) - 1 ∧
      pctIndex s 90 100 = ((s.Count * 90 / 100 : ℕ) : ℤ) - 1 ∧
      pctIndex s 99 100 = ((s.Count * 99 / 100 : ℕ) : ℤ) - 1 := by
  obtain ⟨c25, c50, c75, c90, c99, _⟩ := pct_constants
  have h53 : s.Count < 2 ^ 53 := lt_trans h40 (by norm_num)
  have v25 : ((4503599627370496 : ℕ) : ℚ) * (2 : ℚ) ^ (-54 : ℤ) = 1 / 4 := by norm_num
  have v50 : ((4503599627370496 : ℕ) : ℚ) * (2 : ℚ) ^ (-53 : ℤ) = 1 / 2 := by norm_num
  have v75 : ((6755399441055744 : ℕ) : ℚ) * (2 : ℚ) ^ (-53 : ℤ) = 3 / 4 := by norm_num
  have v90 : ((8106479329266893 : ℕ) : ℚ) * (2 : ℚ) ^ (-53 : ℤ) =
      8106479329266893 / 9007199254740992 := by norm_num
  have v99 : ((8917127262193582 : ℕ) : ℚ) * (2 : ℚ) ^ (-53 : ℤ) =
      8917127262193582 / 9007199254740992 := by norm_num
  have p25 := pctIndex_val s 25 100 _ _ c25 (by norm_num) (by rw [v25]; norm_num) hn h53
  have p50 := pctIndex_val s 5 10 _ _ c50 (by norm_num) (by rw [v50]; norm_num) hn h53
  have p75 := pctIndex_val s 75 100 _ _ c75 (by norm_num) (by rw [v75]; norm_num) hn h53
  have p90 := pctIndex_val s 90 100 _ _ c90 (by norm_num) (by rw [v90]; norm_num) hn h53
  have p99 := pctIndex_val s 99 100 _ _ c99 (by norm_num) (by rw [v99]; norm_num) hn h53
  rw [v25] at p25
  rw [v50] at p50
  rw [v75] at p75
  rw [v90] at p90
  rw [v99] at p99
  have f25 := floor_rq_eq s.Count 25 100 (1 / 4) hn h40 (by norm_num) (by norm_num)
    (by norm_num) (by norm_num) (by norm_num) (by norm_num)
  have f50 := floor_rq_eq s.Count 5 10 (1 / 2) hn h40 (by norm_num) (by norm_num)
    (by norm_num) (by norm_num) (by norm_num) (by norm_num)
  have f75 := floor_rq_eq s.Count 75 100 (3 / 4) hn h40 (by norm_num) (by norm_num)
    (by norm_num) (by norm_num) (by norm_num) (by norm_num)
  have f90 := floor_rq_eq s.Count 90 100 (8106479329266893 / 9007199254740992) hn h40
    (by norm_num) (by norm_num) (by norm_num) (by norm_num) (by norm_num) (by norm_num)
  have f99 := floor_rq_eq s.Count 99 100 (8917127262193582 / 9007199254740992) hn h40
    (by norm_num) (by norm_num) (by norm_num) (by norm_num) (by norm_num) (by norm_num)
  rw [f25] at p25
  rw [f50] at p50
  rw [f75] at p75
  rw [f90] at p90
  rw [f99] at p99
  exact ⟨p25, p50, p75, p90, p99⟩

/-- Nearest rank on the sorted sample, without a clamp: with at least four
samples (and fewer than `2^40`) `Refresh` completes, the figure of each
percentile `p` is the latency (divided by `1_000_000`) of the element at
index `floor(n * p) - 1` of the sorted sample, and min and max are those of
the first and the last element. -/
theorem Refresh_nearest_rank (S : Sorter) (clock : Nat → Int) (title : String) (now : Int)
    (rs : List Result) (h4 : 4 ≤ rs.length) (h40 : rs.length < 2 ^ 40) :
    ((feed clock (NewStats title now) rs).Refresh S).panic = none ∧
      ((feed clock (NewStats title now) rs).Refresh S).stats.Latency min =
        ((S.sort rs)[0]?).map ms ∧
      ((feed clock (NewStats title now) rs).Refresh S).stats.Latency p25 =
        ((S.sort rs)[rs.length * 25 / 100 - 1]?).map ms ∧
      ((feed clock (NewStats title now) rs).Refresh S).stats.Latency p50 =
        ((S.sort rs)[rs.length * 5 / 10 - 1]?).map ms ∧
      ((feed clock (NewStats title now) rs).Refresh S).stats.Latency p75 =
        ((S.sort rs)[rs.length * 75 / 100 - 1]?).map ms ∧
      ((feed clock (NewStats title now) rs).Refresh S).stats.Latency p90 =
        ((S.sort rs)[rs.length * 90 / 100 - 1]?).map ms ∧
      ((feed clock (NewStats title now) rs).Refresh S).stats.Latency p99 =
        ((S.sort rs)[rs.length * 99 / 100 - 1]?).map ms ∧
      ((feed clock (NewStats title now) rs).Refresh S).stats.Latency max =
        ((S.sort rs)[rs.length - 1]?).map ms := by
  obtain ⟨hc, _, _, _, hd⟩ := feed_new clock title now rs
  have hcount : (feed clock (NewStats title now) rs).Count = rs.length := by
    rw [hc]; exact Nat.mod_eq_of_lt (lt_trans h40 (by norm_num))
  have hlen : (S.sort rs).length = rs.length := (S.perm rs).length_eq
  obtain ⟨q25, q50, q75, q90, q99⟩ :=
    pctIndex_eq_floor (feed clock (NewStats title now) rs) (by omega) (by omega)
  rw [hcount] at q25 q50 q75 q90 q99
  have b0 : 0 < (S.sort rs).length := by omega
  have b25 : rs.length * 25 / 100 - 1 < (S.sort rs).length := by omega
  have b50 : rs.length * 5 / 10 - 1 < (S.sort rs).length := by omega
  have b75 : rs.length * 75 / 100 - 1 < (S.sort rs).length := by omega
  have b90 : rs.length * 90 / 100 - 1 < (S.sort rs).length := by omega
  have b99 : rs.length * 99 / 100 - 1 < (S.sort rs).length := by omega
  have bm : rs.length - 1 < (S.sort rs).length := by omega
  have i25 : ((rs.length * 25 / 100 : ℕ) : ℤ) - 1 = ((rs.length * 25 / 100 - 1 : ℕ) : ℤ) := by
    omega
  have i50 : ((rs.length * 5 / 10 : ℕ) : ℤ) - 1 = ((rs.length * 5 / 10 - 1 : ℕ) : ℤ) := by
    omega
  have i75 : ((rs.length * 75 / 100 : ℕ) : ℤ) - 1 = ((rs.length * 75 / 100 - 1 : ℕ) : ℤ) := by
    omega
  have i90 : ((rs.length * 90 / 100 : ℕ) : ℤ) - 1 = ((rs.length * 90 / 100 - 1 : ℕ) : ℤ) := by
    omega
  have i99 : ((rs.length * 99 / 100 : ℕ) : ℤ) - 1 = ((rs.length * 99 / 100 - 1 : ℕ) : ℤ) := by
    omega
  have im : (((S.sort rs).length : ℤ) - 1) = ((rs.length - 1 : ℕ) : ℤ) := by omega
  obtain ⟨c0, c1, c2, c3, c4, c5, c6, c7⟩ :=
    Refresh_complete S (feed clock (NewStats title now) rs) (by omega)
      (S.sort rs)[0] (S.sort rs)[rs.length - 1] (S.sort rs)[rs.length * 25 / 100 - 1]
      (S.sort rs)[rs.length * 5 / 10 - 1] (S.sort rs)[rs.length * 75 / 100 - 1]
      (S.sort rs)[rs.length * 90 / 100 - 1] (S.sort rs)[rs.length * 99 / 100 - 1]
      (by rw [hd]; exact index_of_lt _ 0 b0)
      (by rw [hd, im]; exact index_of_lt _ _ bm)
      (by rw [hd, q25, i25]; exact index_of_lt _ _ b25)
      (by rw [hd, q50, i50]; exact index_of_lt _ _ b50)
      (by rw [hd, q75, i75]; exact index_of_lt _ _ b75)
      (by rw [hd, q90, i90]; exact index_of_lt _ _ b90)
      (by rw [hd, q99, i99]; exact index_of_lt _ _ b99)
  refine ⟨c0, ?_, ?_, ?_, ?_, ?_, ?_, ?_⟩
  · rw [c1, List.getElem?_eq_getElem b0]; rfl
  · rw [c2, List.getElem?_eq_getElem b25]; rfl
  · rw [c3, List.getElem?_eq_getElem b50]; rfl
  · rw [c4, List.getElem?_eq_getElem b75]; rfl
  · rw [c5, List.getElem?_eq_getElem b90]; rfl
  · rw [c6, List.getElem?_eq_getElem b99]; rfl
  · rw [c7, List.getElem?_eq_getElem bm]; rfl

/-! ## `Refresh` completes on every sample of four or more -/

theorem pctIndex_range (s : Stats) (a b mc : ℕ) (ec : ℤ)
    (hc : F64.ofDecimal a b = .finite false mc ec) (hmc : 0 < mc)
    (hv1 : 1 / 4 ≤ (mc : ℚ) * (2 : ℚ) ^ ec) (hv2 : (mc : ℚ) * (2 : ℚ) ^ ec ≤ 99 / 100)
    (hn : 4 ≤ s.Count) (h63 : s.Count < 2 ^ 63) :
    ∃ i : ℕ, pctIndex s a b = (i : ℤ) ∧ i < s.Count := by
  have hn0 : 0 < s.Count := by omega
  have hnq : (4 : ℚ) ≤ (s.Count : ℚ) := by exact_mod_cast hn
  have h63q : (s.Count : ℚ) ≤ 9223372036854775807 := by
    have : s.Count ≤ 9223372036854775807 := by omega
    exact_mod_cast this
  have hU : ((s.Count : ℕ) : ℚ) / (1 : ℕ) < (2 : ℚ) ^ (1000 : ℤ) := by
    simp only [Nat.cast_one, div_one]
    have : (9223372036854775807 : ℚ) < (2 : ℚ) ^ (1000 : ℤ) := by norm_num
    linarith
  obtain ⟨m, e, hN, hNv⟩ := roundRat_val false s.Count 1 hn0 Nat.one_pos hU
  have hrq : rval s.Count 1 = rq (s.Count : ℚ) := by
    have := rval_eq_rq s.Count 1 hn0 Nat.one_pos
    simpa using this
  rw [hrq] at hNv
  -- the converted count is at least 4 and within a relative error of `2^-53`
  have hge4 : (4 : ℚ) ≤ rq (s.Count : ℚ) := by
    have h1 := rq_mono 4 (s.Count : ℚ) (by norm_num) hnq
    have h2 := rq_natCast 4 (by norm_num) (by norm_num)
    simp only [Nat.cast_ofNat] at h2
    rw [h2] at h1
    exact h1
  have e53 : (2 : ℚ) ^ (-53 : ℤ) = 1 / 9007199254740992 := by norm_num
  have herr1 := (abs_le.mp (rq_rel_err (s.Count : ℚ) (by linarith))).2
  rw [e53] at herr1
  have hm : 0 < m := by
    rcases Nat.eq_zero_or_pos m with hz | hz
    · rw [hz] at hNv; simp at hNv; linarith
    · exact hz
  have hy1 : 1 ≤ rq (s.Count : ℚ) * ((mc : ℚ) * (2 : ℚ) ^ ec) := by nlinarith
  have hy2 : rq (s.Count : ℚ) * ((mc : ℚ) * (2 : ℚ) ^ ec) ≤
      rq (s.Count : ℚ) * (99 / 100) :=
    mul_le_mul_of_nonneg_left hv2 (by linarith)
  have hUm : (m : ℚ) * (2 : ℚ) ^ e * ((mc : ℚ) * (2 : ℚ) ^ ec) < (2 : ℚ) ^ (1000 : ℤ) := by
    rw [hNv]
    have : (2 * 9223372036854775807 : ℚ) < (2 : ℚ) ^ (1000 : ℤ) := by norm_num
    linarith
  obtain ⟨M, E, hmul, hmv⟩ := mul_val m mc e ec hm hmc hUm
  rw [hNv] at hmv
  have herr2 := (abs_le.mp (rq_rel_err
    (rq (s.Count : ℚ) * ((mc : ℚ) * (2 : ℚ) ^ ec)) (by linarith))).2
  rw [e53] at herr2
  have hle : rq (rq (s.Count : ℚ) * ((mc : ℚ) * (2 : ℚ) ^ ec)) ≤ s.Count := by
    linarith
  have hge : 1 ≤ rq (rq (s.Count : ℚ) * ((mc : ℚ) * (2 : ℚ) ^ ec)) := rq_pos _ hy1
  have hfl1 : 1 ≤ ⌊rq (rq (s.Count : ℚ) * ((mc : ℚ) * (2 : ℚ) ^ ec))⌋₊ := by
    apply Nat.le_floor
    simpa using hge
  have hfl2 : ⌊rq (rq (s.Count : ℚ) * ((mc : ℚ) * (2 : ℚ) ^ ec))⌋₊ ≤ s.Count := by
    have := Nat.floor_mono hle
    rwa [Nat.floor_natCast] at this
  refine ⟨⌊rq (rq (s.Count : ℚ) * ((mc : ℚ) * (2 : ℚ) ^ ec))⌋₊ - 1, ?_, by omega⟩
  unfold pctIndex F64.ofUInt64
  rw [hN, hc, hmul, toInt_finite M E (by
    rw [hmv]
    have : (9223372036854775807 : ℚ) < (2 : ℚ) ^ (63 : ℤ) := by norm_num
    linarith), hmv]
  omega

theorem Refresh_no_panic (S : Sorter) (clock : Nat → Int) (title : String) (now : Int)
    (rs : List Result) (h4 : 4 ≤ rs.length) (h63 : rs.length < 2 ^ 63) :
    ((feed clock (NewStats title now) rs).Refresh S).panic = none := by
  obtain ⟨hc, _, _, _, hd⟩ := feed_new clock title now rs
  have hcount : (feed clock (NewStats title now) rs).Count = rs.length := by
    rw [hc]; exact Nat.mod_eq_of_lt (lt_trans h63 (by norm_num))
  have hlen : (S.sort (feed clock (NewStats title now) rs).DataPoints).length = rs.length := by
    rw [hd]; exact (S.perm rs).length_eq
  obtain ⟨c25, c50, c75, c90, c99, _⟩ := pct_constants
  obtain ⟨i25, p25, b25⟩ := pctIndex_range (feed clock (NewStats title now) rs) 25 100 _ _ c25
    (by norm_num) (by norm_num) (by norm_num) (by omega) (by omega)
  obtain ⟨i50, p50, b50⟩ := pctIndex_range (feed clock (NewStats title now) rs) 5 10 _ _ c50
    (by norm_num) (by norm_num) (by norm_num) (by omega) (by omega)
  obtain ⟨i75, p75, b75⟩ := pctIndex_range (feed clock (NewStats title now) rs) 75 100 _ _ c75
    (by norm_num) (by norm_num) (by norm_num) (by omega) (by omega)
  obtain ⟨i90, p90, b90⟩ := pctIndex_range (feed clock (NewStats title now) rs) 90 100 _ _ c90
    (by norm_num) (by norm_num) (by norm_num) (by omega) (by omega)
  obtain ⟨i99, p99, b99⟩ := pctIndex_range (feed clock (NewStats title now) rs) 99 100 _ _ c99
    (by norm_num) (by norm_num) (by norm_num) (by omega) (by omega)
  rw [hcount, ← hlen] at b25 b50 b75 b90 b99
  have b0 : 0 < (S.sort (feed clock (NewStats title now) rs).DataPoints).length := by omega
  have bm : (S.sort (feed clock (NewStats title now) rs).DataPoints).length - 1 <
      (S.sort (feed clock (NewStats title now) rs).DataPoints).length := by omega
  have hm : (((S.sort (feed clock (NewStats title now) rs).DataPoints).length : ℤ) - 1) =
      (((S.sort (feed clock (NewStats title now) rs).DataPoints).length - 1 : ℕ) : ℤ) := by
    omega
  exact (Refresh_complete S (feed clock (NewStats title now) rs) (by omega) _ _ _ _ _ _ _
      (index_of_lt _ 0 b0) (by rw [hm]; exact index_of_lt _ _ bm)
      (by rw [p25]; exact index_of_lt _ i25 b25) (by rw [p50]; exact index_of_lt _ i50 b50)
      (by rw [p75]; exact index_of_lt _ i75 b75) (by rw [p90]; exact index_of_lt _ i90 b90)
      (by rw [p99]; exact index_of_lt _ i99 b99)).1

set_option maxRecDepth 100000 in
theorem sampleWrap_figures :
    ((feed (fun _ => 0) (NewStats "" 0) sampleWrap).Refresh insertionSorter).panic = none ∧
      ((feed (fun _ => 0) (NewStats "" 0) sampleWrap).Refresh insertionSorter).stats.Latency avg =
        some (.finite false 4722366482869645 (-10)) ∧
      ((feed (fun _ => 0) (NewStats "" 0) sampleWrap).Refresh insertionSorter).stats.Latency min =
        some (.finite false 4722366482869645 (-9)) ∧
      specAvg sampleWrap = .finite false 4722366482869645 (-9) ∧
      F64.le (.finite false 4722366482869645 (-9)) (.finite false 4722366482869645 (-10)) =
        false := by
  decide

set_option maxRecDepth 100000 in
theorem sampleNeg_figures :
    ((feed (fun _ => 0) (NewStats "" 0) sampleNeg).Refresh insertionSorter).panic = none ∧
      ((feed (fun _ => 0) (NewStats "" 0) sampleNeg).Refresh insertionSorter).stats.Latency avg =
        some (.finite false 4722366482868621 (-10)) ∧
      ((feed (fun _ => 0) (NewStats "" 0) sampleNeg).Refresh insertionSorter).stats.Latency max =
        some (.finite true 4503599627370496 (-52)) ∧
      specAvg sampleNeg = .finite true 4503599627370496 (-52) ∧
      F64.le (.finite false 4722366482868621 (-10)) (.finite true 4503599627370496 (-52)) =
        false := by
  decide

theorem ofInt64_of_nonneg (i : ℤ) (h : 0 ≤ i) : F64.ofInt64 i = F64.ofUInt64 i.toNat := by
  unfold F64.ofInt64 F64.ofUInt64
  have h1 : decide (i < 0) = false := by simp; omega
  have h2 : i.natAbs = i.toNat := by omega
  rw [h1, h2]

/-- The figures avg, min and max that `Refresh` writes for a non-empty
sequence of Results with non-negative latencies whose sum fits `uint64`, and
the figures of the scenario of four Results. -/
theorem feed_Refresh_avg_min_max (S : Sorter) (clock : Nat → Int) (title : String)
    (now : Int) (rs : List Result) (hne : rs ≠ [])
    (hpos : ∀ r ∈ rs, 0 ≤ r.Latency)
    (hsum : (rs.map (fun r => r.Latency)).sum < 2 ^ 64)
    (hlen : rs.length < 2 ^ 64) :
    ((feed clock (NewStats title now) rs).Refresh S).stats.Latency avg =
        some (F64.div
          (F64.div (F64.ofUInt64 ((rs.map (fun r : Result => r.Latency)).sum).toNat)
            (F64.ofUInt64 rs.length))
          (F64.ofDecimal 1000000 1)) ∧
      (∃ lo ∈ rs, (∀ r ∈ rs, lo.Latency ≤ r.Latency) ∧
        ((feed clock (NewStats title now) rs).Refresh S).stats.Latency min =
          some (F64.div (F64.ofInt64 lo.Latency) (F64.ofDecimal 1000000 1))) ∧
      (∃ hi ∈ rs, (∀ r ∈ rs, r.Latency ≤ hi.Latency) ∧
        ((feed clock (NewStats title now) rs).Refresh S).stats.Latency max =
          some (F64.div (F64.ofInt64 hi.Latency) (F64.ofDecimal 1000000 1))) ∧
      ((feed clock (NewStats title now) sample4).Refresh S).panic = none ∧
      ((feed clock (NewStats title now) sample4).Refresh S).stats.Latency avg =
        some (F64.ofDecimal 5 2) ∧
      ((feed clock (NewStats title now) sample4).Refresh S).stats.Latency min =
        some (F64.ofDecimal 1 1) ∧
      ((feed clock (NewStats title now) sample4).Refresh S).stats.Latency max =
        some (F64.ofDecimal 4 1) ∧
      ((feed clock (NewStats title now) sample4).Refresh S).stats.Latency p50 =
        some (F64.ofDecimal 2 1) ∧
      pctIndex (feed clock (NewStats title now) sample4) 5 10 = 1 := by
  obtain ⟨hc, hl, _, _, hd⟩ := feed_new clock title now rs
  have hlen0 : 0 < rs.length := List.length_pos.mpr hne
  have hcount : (feed clock (NewStats title now) rs).Count = rs.length := by
    rw [hc, Nat.mod_eq_of_lt hlen]
  obtain ⟨hs0, hs⟩ := sum_toUInt64 rs hpos hsum
  have hsumL : (feed clock (NewStats title now) rs).SumLatency =
      ((rs.map (fun r : Result => r.Latency)).sum).toNat := by
    rw [hl]
    have h1 : (rs.map (fun r => toUInt64 r.Latency)).sum =
        ((rs.map (fun r : Result => r.Latency)).sum).toNat := by omega
    rw [h1]
    exact Nat.mod_eq_of_lt (by omega)
  obtain ⟨lo, hi, hlo, hhi, hall, hmin, hmax, havg⟩ :=
    Refresh_figures S (feed clock (NewStats title now) rs) (by omega) (by rw [hd]; exact hne)
  rw [hd] at hlo hhi hall
  rw [hcount, hsumL] at havg
  obtain ⟨a1, a2, _, _, _⟩ := feed_Refresh_agree S insertionSorter clock (fun _ => 0)
    title "" now 0 sample4 sample4 (List.Perm.refl _)
  obtain ⟨e1, e2, e3, e4, e5, e6⟩ := sample4_figures
  have hidx : pctIndex (feed clock (NewStats title now) sample4) 5 10 = 1 := by
    rw [← e6]
    exact pctIndex_congr 5 10 _ _ (by
      rw [(feed_new clock title now sample4).1, (feed_new (fun _ => 0) "" 0 sample4).1])
  exact ⟨havg, ⟨lo, hlo, fun r hr => (hall r hr).1, hmin⟩,
    ⟨hi, hhi, fun r hr => (hall r hr).2, hmax⟩,
    by rw [a1, e1], by rw [a2, e2], by rw [a2, e3], by rw [a2, e4], by rw [a2, e5], hidx⟩

/-! ## The claims -/

/-- C1 fails on the code: with one, two or three samples the p25 index
`int(float64(Count) * 0.25) - 1` is `-1`, there is no clamp, and `Refresh`
panics on the slice read `DataPoints[-1]`, leaving no p25 figure. -/
theorem C1_Refresh_panics_below_four_samples (S : Sorter) (clock : Nat → Int)
    (title : String) (now : Int) (a b c : Result) :
    ((feed clock (NewStats title now) [a]).Refresh S).panic = some (-1) ∧
      ((feed clock (NewStats title now) [a, b]).Refresh S).panic = some (-1) ∧
      ((feed clock (NewStats title now) [a, b, c]).Refresh S).panic = some (-1) ∧
      ((feed clock (NewStats title now) [a]).Refresh S).stats.Latency p25 = none ∧
      pctIndex (feed clock (NewStats title now) [a]) 25 100 = -1 := by
  have hc1 := (feed_new clock title now [a]).1
  have hc2 := (feed_new clock title now [a, b]).1
  have hc3 := (feed_new clock title now [a, b, c]).1
  have hd1 := (feed_new clock title now [a]).2.2.2.2
  have hd2 := (feed_new clock title now [a, b]).2.2.2.2
  have hd3 := (feed_new clock title now [a, b, c]).2.2.2.2
  have hl1 := (feed_new clock title now [a]).2.2.2.1
  simp only [List.length_cons, List.length_nil] at hc1 hc2 hc3
  norm_num at hc1 hc2 hc3
  have r1 := Refresh_small S (feed clock (NewStats title now) [a]) (by omega) (by omega)
    (by rw [hd1]; simp)
  have r2 := Refresh_small S (feed clock (NewStats title now) [a, b]) (by omega) (by omega)
    (by rw [hd2]; simp)
  have r3 := Refresh_small S (feed clock (NewStats title now) [a, b, c]) (by omega) (by omega)
    (by rw [hd3]; simp)
  refine ⟨r1.1, r2.1, r3.1, ?_, pctIndex_p25_small _ (by omega) (by omega)⟩
  rw [r1.2, hl1]

/-- C2, as stated, fails. Four Results with the largest `time.Duration` as
latency: the `uint64` sum wraps, `Refresh` completes, and the avg figure is
half of the min figure instead of the sum over the count. Four Results with
a latency of -1 ms: `uint64(latency)` wraps, and the avg figure is above the
max figure. -/
theorem C2_avg_is_not_sum_over_count :
    ((feed (fun _ => 0) (NewStats "" 0) sampleWrap).Refresh insertionSorter).panic = none ∧
      ((feed (fun _ => 0) (NewStats "" 0) sampleWrap).Refresh insertionSorter).stats.Latency avg ≠
        some (specAvg sampleWrap) ∧
      F64.le
        (((feed (fun _ => 0) (NewStats "" 0) sampleWrap).Refresh insertionSorter).stats.latency min)
        (((feed (fun _ => 0) (NewStats "" 0) sampleWrap).Refresh insertionSorter).stats.latency avg)
        = false ∧
      ((feed (fun _ => 0) (NewStats "" 0) sampleNeg).Refresh insertionSorter).panic = none ∧
      ((feed (fun _ => 0) (NewStats "" 0) sampleNeg).Refresh insertionSorter).stats.Latency avg ≠
        some (specAvg sampleNeg) ∧
      F64.le
        (((feed (fun _ => 0) (NewStats "" 0) sampleNeg).Refresh insertionSorter).stats.latency avg)
        (((feed (fun _ => 0) (NewStats "" 0) sampleNeg).Refresh insertionSorter).stats.latency max)
        = false := by
  obtain ⟨w1, w2, w3, w4, w5⟩ := sampleWrap_figures
  obtain ⟨n1, n2, n3, n4, n5⟩ := sampleNeg_figures
  refine ⟨w1, ?_, ?_, n1, ?_, ?_⟩
  · rw [w2, w4]; decide
  · unfold Stats.latency; rw [w2, w3]; exact w5
  · rw [n2, n4]; decide
  · unfold Stats.latency; rw [n2, n3]; exact n5

/-- C2, amended: for every sequence of at least four Results (a slice has
fewer than `2^63` elements) with non-negative latencies whose sum in
nanoseconds is below `2^64`, fed one by one through `Update` to a fresh
`Stats`, `Refresh` completes and sets the avg figure to the sum of the
latencies over the count, in milliseconds, the min figure to the smallest
and the max figure to the largest latency of the sequence. For the four
Results of sizes 10, 20, 30, 40 and latencies 1, 2, 3, 4 ms this gives
avg = 2.5, min = 1, max = 4 and p50 = 2, read at index 1 of the sorted
sample. -/
theorem C2_avg_min_max_from_four_samples (S : Sorter) (clock : Nat → Int) (title : String)
    (now : Int) (rs : List Result) (h4 : 4 ≤ rs.length) (hlen : rs.length < 2 ^ 63)
    (hpos : ∀ r ∈ rs, 0 ≤ r.Latency)
    (hsum : (rs.map (fun r => r.Latency)).sum < 2 ^ 64) :
    ((feed clock (NewStats title now) rs).Refresh S).panic = none ∧
      ((feed clock (NewStats title now) rs).Refresh S).stats.Latency avg =
        some (specAvg rs) ∧
      (∃ lo ∈ rs, (∀ r ∈ rs, lo.Latency ≤ r.Latency) ∧
        ((feed clock (NewStats title now) rs).Refresh S).stats.Latency min =
          some (F64.div (F64.ofInt64 lo.Latency) (F64.ofDecimal 1000000 1))) ∧
      (∃ hi ∈ rs, (∀ r ∈ rs, r.Latency ≤ hi.Latency) ∧
        ((feed clock (NewStats title now) rs).Refresh S).stats.Latency max =
          some (F64.div (F64.ofInt64 hi.Latency) (F64.ofDecimal 1000000 1))) ∧
      ((feed clock (NewStats title now) sample4).Refresh S).panic = none ∧
      ((feed clock (NewStats title now) sample4).Refresh S).stats.Latency avg =
        some (F64.ofDecimal 5 2) ∧
      ((feed clock (NewStats title now) sample4).Refresh S).stats.Latency min =
        some (F64.ofDecimal 1 1) ∧
      ((feed clock (NewStats title now) sample4).Refresh S).stats.Latency max =
        some (F64.ofDecimal 4 1) ∧
      ((feed clock (NewStats title now) sample4).Refresh S).stats.Latency p50 =
        some (F64.ofDecimal 2 1) ∧
      pctIndex (feed clock (NewStats title now) sample4) 5 10 = 1 := by
  have hne : rs ≠ [] := by
    intro h
    rw [h] at h4
    simp at h4
  obtain ⟨havg, hmin, hmax, hrest⟩ := feed_Refresh_avg_min_max S clock title now rs hne hpos
    hsum (lt_trans hlen (by norm_num))
  have hs0 := (sum_toUInt64 rs hpos hsum).1
  refine ⟨Refresh_no_panic S clock title now rs h4 hlen, ?_, hmin, hmax, hrest⟩
  rw [havg]
  unfold specAvg
  rw [ofInt64_of_nonneg _ hs0]

/-- Witness of C2 amended: the scenario of four Results, with the insertion
sort. -/
theorem C2_avg_min_max_witness :
    4 ≤ sample4.length ∧ sample4.length < 2 ^ 63 ∧ (∀ r ∈ sample4, 0 ≤ r.Latency) ∧
      (sample4.map (fun r => r.Latency)).sum < 2 ^ 64 ∧
      ((feed (fun k => 5 + k) (NewStats "PUT 4" 0) sample4).Refresh insertionSorter).panic =
        none ∧
      ((feed (fun k => 5 + k) (NewStats "PUT 4" 0) sample4).Refresh insertionSorter).stats.Latency
        avg = some (specAvg sample4) :=
  ⟨by decide, by decide, by decide, by decide,
    (C2_avg_min_max_from_four_samples insertionSorter (fun k => 5 + k) "PUT 4" 0 sample4
      (by decide) (by decide) (by decide) (by decide)).1,
    (C2_avg_min_max_from_four_samples insertionSorter (fun k => 5 + k) "PUT 4" 0 sample4
      (by decide) (by decide) (by decide) (by decide)).2.1⟩

/-- C3 fails on the code: after one `Update` with a latency of 1 ms, `Refresh`
writes min = 1 and panics on the p25 read, so that the p25 figure is never
written and reads 0: `min <= p25` does not hold. The cause is the one of
C1. -/
theorem C3_monotonicity_fails_on_one_sample (S : Sorter) (clock : Nat → Int)
    (title : String) (now : Int) :
    ((feed clock (NewStats title now) sample1).Refresh S).panic = some (-1) ∧
      ((feed clock (NewStats title now) sample1).Refresh S).stats.latency min =
        F64.ofDecimal 1 1 ∧
      ((feed clock (NewStats title now) sample1).Refresh S).stats.latency p25 = F64.zero ∧
      F64.le (((feed clock (NewStats title now) sample1).Refresh S).stats.latency min)
        (((feed clock (NewStats title now) sample1).Refresh S).stats.latency p25) = false := by
  obtain ⟨a1, a2, _, _, _⟩ := feed_Refresh_agree S insertionSorter clock (fun _ => 0)
    title "" now 0 sample1 sample1 (List.Perm.refl _)
  obtain ⟨e1, e2, e3, e4⟩ := sample1_figures
  have h2 : ((feed clock (NewStats title now) sample1).Refresh S).stats.latency min =
      F64.ofDecimal 1 1 := by
    rw [← e2]; unfold Stats.latency; rw [a2]
  have h3 : ((feed clock (NewStats title now) sample1).Refresh S).stats.latency p25 =
      F64.zero := by
    rw [← e3]; unfold Stats.latency; rw [a2]
  refine ⟨by rw [a1, e1], h2, h3, ?_⟩
  rw [h2, h3, e4]

/-- C4, as stated, fails: with the history `[failed, "a", "b"]` and the
bound 2 the channel receives only `"a"`, where the payloads of the first
two entries whose extraction succeeds are `"a"` and `"b"`. -/
theorem C4_bound_counts_entries_examined :
    (FeedUpload [⟨none⟩, ⟨some (some "a")⟩, ⟨some (some "b")⟩] 2 0).1.jobs = ["a"] ∧
    specUploadJobs [⟨none⟩, ⟨some (some "a")⟩, ⟨some (some "b")⟩] 2 = ["a", "b"] ∧
    (FeedUpload [⟨none⟩, ⟨some (some "a")⟩, ⟨some (some "b")⟩] 2 0).1.jobs ≠
      specUploadJobs [⟨none⟩, ⟨some (some "a")⟩, ⟨some (some "b")⟩] 2 := by
  decide

/-- C4, amended: for every history and every bound `M > 0`, `FeedUpload`
sends exactly the payloads of those among the first `M` entries of the
history whose extraction succeeds, in history order, and then closes the
channel. An entry whose extraction fails is skipped and does not stop the
iteration, but counts toward `M` like every entry examined. -/
theorem C4_FeedUpload_sends_payloads_of_first_M_entries
    (history : List Commit) (M messagecount : Nat) (hpos : 0 < M) (hM : M < 2 ^ 64) :
    (FeedUpload history M messagecount).1.jobs =
        (history.take M).filterMap Commit.payload ∧
      (FeedUpload history M messagecount).1.closed = true := by
  refine ⟨?_, rfl⟩
  have h := upload_bounded M hM history ⟨[], 0, false⟩ hpos
  simpa [FeedUpload] using h

/-- Witness of C4 amended: bound 2 on a history of three entries, the first
of which has no payload. -/
theorem C4_FeedUpload_witness :
    0 < 2 ∧ 2 < 2 ^ 64 ∧
      (FeedUpload [⟨none⟩, ⟨some (some "a")⟩, ⟨some (some "b")⟩] 2 0).1.jobs =
        (([⟨none⟩, ⟨some (some "a")⟩, ⟨some (some "b")⟩] : List Commit).take 2).filterMap
          Commit.payload ∧
      (FeedUpload [⟨none⟩, ⟨some (some "a")⟩, ⟨some (some "b")⟩] 2 0).1.closed = true :=
  ⟨by decide, by decide,
    C4_FeedUpload_sends_payloads_of_first_M_entries
      [⟨none⟩, ⟨some (some "a")⟩, ⟨some (some "b")⟩] 2 0 (by decide) (by decide)⟩

/-- C5: for every listing and every bound `M`, `FeedDownload` closes the
channel after sending, in listing order, the first `min M n` of the `n` keys
when `M > 0` and all `n` keys when `M = 0`; with `M = 5` and `n = 1000`
exactly 5 jobs are sent. -/
theorem C5_FeedDownload_bounded_job_count
    (pages : List (List String)) (M : Nat) (hM : M < 2 ^ 64) :
    (FeedDownload pages M).closed = true ∧
      (0 < M → (FeedDownload pages M).jobs =
        pages.flatten.take (Min.min M pages.flatten.length)) ∧
      (M = 0 → (FeedDownload pages M).jobs = pages.flatten) ∧
      (M = 5 → pages.flatten.length = 1000 → (FeedDownload pages M).jobs.length = 5) := by
  have hb : 0 < M → (FeedDownload pages M).jobs = pages.flatten.take M := by
    intro hpos
    have h := download_bounded M hM pages.flatten ⟨[], 0, false⟩ hpos
    simpa [FeedDownload, ListObjects_eq_flatten] using h
  refine ⟨rfl, ?_, ?_, ?_⟩
  · intro hpos
    rw [hb hpos]
    rcases Nat.le_total M pages.flatten.length with h | h
    · rw [min_eq_left h]
    · rw [min_eq_right h, List.take_of_length_le h, List.take_length]
  · intro h0
    subst h0
    have h := download_unbounded pages.flatten ⟨[], 0, false⟩
    simpa [FeedDownload, ListObjects_eq_flatten] using h
  · intro h5 hlen
    subst h5
    rw [hb (by decide), List.length_take, hlen]
    decide

/-- Witness of C5: bound 2 on a listing of two pages with three keys. -/
theorem C5_FeedDownload_witness :
    2 < 2 ^ 64 ∧
      (FeedDownload [["s3bench/a", "s3bench/b"], ["s3bench/c"]] 2).closed = true ∧
      (FeedDownload [["s3bench/a", "s3bench/b"], ["s3bench/c"]] 2).jobs =
        ([["s3bench/a", "s3bench/b"], ["s3bench/c"]] : List (List String)).flatten.take
          (Min.min 2
            ([["s3bench/a", "s3bench/b"], ["s3bench/c"]] : List (List String)).flatten.length) :=
  ⟨by decide,
    (C5_FeedDownload_bounded_job_count [["s3bench/a", "s3bench/b"], ["s3bench/c"]] 2
      (by decide)).1,
    (C5_FeedDownload_bounded_job_count [["s3bench/a", "s3bench/b"], ["s3bench/c"]] 2
      (by decide)).2.1 (by decide)⟩

/-- C6 fails on the code for the download worker: after 11 jobs whose request
fails, with no further job, `DownloadWorker` returns without a panic, its
failure count at 11; with a 12th job it panics on receiving that job, before
handling it, and the message has the text of no error, since the error
variable it prints is never assigned. The upload worker panics while handling
its 11th failed job, with the text of that error. -/
theorem C6_download_threshold_checked_on_next_job (key e : String) (elapsed : Int) :
    DownloadWorker (List.replicate 11 ⟨key, some e, [], 0, elapsed⟩) = ⟨11, [], 11, none⟩ ∧
      DownloadWorker (List.replicate 12 ⟨key, some e, [], 0, elapsed⟩) =
        ⟨11, [], 12, some "s3: git: too many failures. Last: %!s(<nil>)"⟩ ∧
      UploadWorker (List.replicate 11 ⟨key, some e, elapsed⟩) =
        ⟨11, [], 11, some ("s3: put: too many failures. Last: " ++ e)⟩ := by
  refine ⟨?_, ?_, ?_⟩
  · simp [DownloadWorker, downloadLoop, List.replicate]
  · simp [DownloadWorker, downloadLoop, List.replicate, fmtS]
  · simp [UploadWorker, uploadLoop, List.replicate, fmtS]

/-- C7 fails on the code for the download worker: when a read of the response
body returns an error other than `io.EOF` and a later read reports `io.EOF`,
`DownloadWorker` raises its failure count and still sends a Result, whose
size is the number of bytes read; two such reads in one job raise the count
by two. A job whose request fails sends no Result and raises the count by
one, as the claim says. -/
theorem C7_download_sends_result_after_read_error (key e e2 : String)
    (n n2 last elapsed : Int) (reads : List ReadCall) :
    DownloadWorker [⟨key, none, [⟨n, some e⟩], last, elapsed⟩] =
        ⟨1, [⟨elapsed, n + last⟩], 1, none⟩ ∧
      DownloadWorker [⟨key, none, [⟨n, some e⟩, ⟨n2, some e2⟩], last, elapsed⟩] =
        ⟨2, [⟨elapsed, n + n2 + last⟩], 1, none⟩ ∧
      DownloadWorker [⟨key, some e, reads, last, elapsed⟩] = ⟨1, [], 1, none⟩ := by
  refine ⟨?_, ?_, ?_⟩
  · simp [DownloadWorker, downloadLoop, readBody]
  · simp [DownloadWorker, downloadLoop, readBody]
  · simp [DownloadWorker, downloadLoop]

/-- C8: for two sequences of Results of length at least 4 that are
permutations of one another, feeding each through `Update` to a fresh `Stats`
and calling `Refresh` yields the same `Count`, `SumBytes` and `SumLatency` and
the same entry of the `Latency` map at every key, so the same eight figures.
This holds whatever sort satisfying the contract of `sort.Sort` each run
uses, stable or not, and whatever the clocks; below `2^53` samples both
calls complete without a panic. -/
theorem C8_insertion_order_irrelevant (S1 S2 : Sorter) (clock1 clock2 : Nat → Int)
    (title1 title2 : String) (now1 now2 : Int) (rs1 rs2 : List Result)
    (hlen : 4 ≤ rs1.length) (hperm : rs1.Perm rs2) :
    ((feed clock1 (NewStats title1 now1) rs1).Refresh S1).stats.Count =
        ((feed clock2 (NewStats title2 now2) rs2).Refresh S2).stats.Count ∧
      ((feed clock1 (NewStats title1 now1) rs1).Refresh S1).stats.SumBytes =
        ((feed clock2 (NewStats title2 now2) rs2).Refresh S2).stats.SumBytes ∧
      ((feed clock1 (NewStats title1 now1) rs1).Refresh S1).stats.SumLatency =
        ((feed clock2 (NewStats title2 now2) rs2).Refresh S2).stats.SumLatency ∧
      (∀ key : Int,
        ((feed clock1 (NewStats title1 now1) rs1).Refresh S1).stats.Latency key =
          ((feed clock2 (NewStats title2 now2) rs2).Refresh S2).stats.Latency key) ∧
      ((feed clock1 (NewStats title1 now1) rs1).Refresh S1).panic =
        ((feed clock2 (NewStats title2 now2) rs2).Refresh S2).panic ∧
      (rs1.length < 2 ^ 53 →
        ((feed clock1 (NewStats title1 now1) rs1).Refresh S1).panic = none ∧
        ((feed clock2 (NewStats title2 now2) rs2).Refresh S2).panic = none) := by
  obtain ⟨hp, hl, hc, hsl, hsb⟩ :=
    feed_Refresh_agree S1 S2 clock1 clock2 title1 title2 now1 now2 rs1 rs2 hperm
  refine ⟨hc, hsb, hsl, fun key => congrFun hl key, hp, fun h53 => ?_⟩
  have h1 := (Refresh_four_or_more S1 clock1 title1 now1 rs1 hlen h53).1
  exact ⟨h1, by rw [← hp]; exact h1⟩

/-- Witness of C8: four Results and the same four in reverse order. -/
theorem C8_insertion_order_witness :
    4 ≤ sample4.length ∧ sample4.Perm sample4.reverse ∧
      ((feed (fun k => k) (NewStats "GET 4" 0) sample4).Refresh insertionSorter).stats.Latency
          p50 =
        ((feed (fun k => 2 * k) (NewStats "GET 8" 1) sample4.reverse).Refresh
          insertionSorter).stats.Latency p50 :=
  ⟨by decide, (List.reverse_perm sample4).symm,
    (C8_insertion_order_irrelevant insertionSorter insertionSorter (fun k => k)
      (fun k => 2 * k) "GET 4" "GET 8" 0 1 sample4 sample4.reverse (by decide)
      (List.reverse_perm sample4).symm).2.2.2.1 p50⟩

/-- C9: `Count == len(DataPoints)` holds for the `Stats` of `NewStats`, is
kept by `Update` (the length of a slice stays below `2^64`) and by `Refresh`;
hence after any sequence of calls of `Update` and `Refresh` on a fresh
`Stats` the two are equal, and equal to the number of `Update` calls when no
`Refresh` panicked. -/
theorem C9_count_eq_len (S : Sorter) (title : String) (now : Int) (ops : List Op)
    (hn : updates ops < 2 ^ 64) :
    (NewStats title now).Count = (NewStats title now).DataPoints.length ∧
      (∀ (s : Stats) (r : Result) (t : Int), s.Count = s.DataPoints.length →
        s.DataPoints.length + 1 < 2 ^ 64 →
        (s.Update r t).Count = (s.Update r t).DataPoints.length) ∧
      (∀ s : Stats, s.Count = s.DataPoints.length →
        (s.Refresh S).stats.Count = (s.Refresh S).stats.DataPoints.length) ∧
      (run S (NewStats title now) ops).stats.Count =
        (run S (NewStats title now) ops).stats.DataPoints.length ∧
      ((run S (NewStats title now) ops).panic = none →
        (run S (NewStats title now) ops).stats.Count = updates ops ∧
        (run S (NewStats title now) ops).stats.DataPoints.length = updates ops) := by
  have h := run_count_len S ops (NewStats title now) rfl (by simpa [NewStats] using hn)
  refine ⟨rfl, fun s r t => Update_count_len s r t, fun s => Refresh_count_len S s, h.1,
    fun hp => ?_⟩
  have h2 := h.2 hp
  have h3 : (NewStats title now).Count = 0 := rfl
  rw [h3, Nat.zero_add] at h2
  exact ⟨h2, by rw [← h.1, h2]⟩

/-- Witness of C9: a `Refresh`, four `Update`s and a `Refresh`. -/
theorem C9_count_eq_len_witness :
    updates [.refresh, .update ⟨4, 1⟩ 1, .update ⟨3, 1⟩ 2, .update ⟨2, 1⟩ 3,
        .update ⟨1, 1⟩ 4, .refresh] < 2 ^ 64 ∧
      (run insertionSorter (NewStats "PUT 4" 0)
        [.refresh, .update ⟨4, 1⟩ 1, .update ⟨3, 1⟩ 2, .update ⟨2, 1⟩ 3,
          .update ⟨1, 1⟩ 4, .refresh]).stats.Count =
      (run insertionSorter (NewStats "PUT 4" 0)
        [.refresh, .update ⟨4, 1⟩ 1, .update ⟨3, 1⟩ 2, .update ⟨2, 1⟩ 3,
          .update ⟨1, 1⟩ 4, .refresh]).stats.DataPoints.length :=
  ⟨by decide,
    (C9_count_eq_len insertionSorter "PUT 4" 0
      [.refresh, .update ⟨4, 1⟩ 1, .update ⟨3, 1⟩ 2, .update ⟨2, 1⟩ 3,
        .update ⟨1, 1⟩ 4, .refresh] (by decide)).2.2.2.1⟩

/-- C10: for every `Stats` with `Count == 0`, `Refresh` returns without a
panic and leaves the `Stats` as it was; a listing without keys makes
`FeedDownload` send no job and close the channel, and a worker that receives
no job sends no Result. -/
theorem C10_Refresh_empty_round (S : Sorter) (s : Stats) (pages : List (List String))
    (M : Nat) (h : s.Count = 0) (hp : pages.flatten = []) :
    s.Refresh S = ⟨s, none⟩ ∧
      (FeedDownload pages M).jobs = [] ∧ (FeedDownload pages M).closed = true ∧
      (DownloadWorker []).results = [] ∧ (DeleteWorker []).results = [] := by
  refine ⟨Refresh_of_zero S s (by omega), ?_, rfl, rfl, rfl⟩
  simp [FeedDownload, ListObjects_eq_flatten, hp, forEach]

/-- Witness of C10: a fresh `Stats` and a listing of one empty page. -/
theorem C10_Refresh_empty_round_witness :
    (NewStats "GET 4" 0).Count = 0 ∧ ([[]] : List (List String)).flatten = [] ∧
      (NewStats "GET 4" 0).Refresh insertionSorter = ⟨NewStats "GET 4" 0, none⟩ ∧
      (FeedDownload [[]] 5).jobs = [] :=
  ⟨rfl, rfl,
    (C10_Refresh_empty_round insertionSorter (NewStats "GET 4" 0) [[]] 5 rfl rfl).1,
    (C10_Refresh_empty_round insertionSorter (NewStats "GET 4" 0) [[]] 5 rfl rfl).2.1⟩

end S3Bench
